import Mathlib

/-!
# Verification of oasis-core consensus-layer claims

A shallow embedding, in Lean 4, of selected parts of the oasis-core
repository (Go), together with proofs of the frozen specification claims.

Embedding conventions:
* Go byte slices become `List Nat` with every element `< 256`;
* Go `uint64` / `int` arithmetic becomes `Nat` arithmetic (with explicit
  `% 2^w` truncation where the Go code can overflow or truncate, e.g. the
  `byte(...)` casts in `Key.SplitAt`);
* fallible Go functions return `Except`;
* stateful code threads an explicit state value;
* Go maps become association lists (`List (κ × α)`).

Sections:
* `Alg` — storage/alg key bit strings (`Key`, `SplitAt`,
  `SplitAtObviouslyCorrect`);
* `Mux` — the ABCI application multiplexer (halt epoch handling,
  mempool-invalidation notification, lexicographic dispatch order);
* `Registry` — the registry application's `registerNode` transaction;
* `KeyManager` — key-manager status recomputation at epoch transitions;
* `Staking` — the supplementary-sanity `checkStaking` invariant check.
-/

namespace Alg

/-- Key object for looking up entries in the authenticated data structure.
Keys are arbitrary bit strings over a byte slice `k`, with bit indices
numbered msb-first; `msbBix` is the number of already-consumed high-order
bits.  Mirrors `type Key struct { k []byte; msbBix int }`. -/
structure Key where
  k : List Nat
  msbBix : Nat
deriving Repr, DecidableEq

/-- Well-formedness of a key descriptor as maintained by the Go API
(`NewKey`, `Clone`, `DropBits`, ...): the consumed-bit cursor never exceeds
the bit length of the slice and all slice elements are bytes. -/
def Key.Wf (key : Key) : Prop :=
  key.msbBix ≤ 8 * key.k.length ∧ ∀ b ∈ key.k, b < 256

instance (key : Key) : Decidable key.Wf := by
  unfold Key.Wf; infer_instance

/-- `k.k[i]` with Go's in-bounds access modelled as `getD`; all uses below
are in bounds for well-formed keys. -/
def byteAt (bs : List Nat) (i : Nat) : Nat := bs.getD i 0

/-- `byteAt` lifted to possibly-negative indices (the `SplitAt` copy loop
reads `k.k[jx]` only when `0 <= jx` and otherwise uses the byte `0`). -/
def byteAtI (bs : List Nat) (j : Int) : Nat :=
  if 0 ≤ j then byteAt bs j.toNat else 0

/-- `func (k *Key) NumBits() int { return int(8*len(k.k)) - k.msbBix }`.
For well-formed keys the Go `int` value is non-negative and agrees with
this `Nat` truncated subtraction. -/
def Key.NumBits (key : Key) : Nat := 8 * key.k.length - key.msbBix

/-- `func (k *Key) GetBit(bix int) int`: bit number `bix` (msb-first,
relative to the consumed-bit cursor).  The Go code panics out of range;
every theorem below only evaluates it in range. -/
def Key.GetBit (key : Key) (bix : Nat) : Nat :=
  let kix := key.msbBix + bix
  (byteAt key.k (kix / 8)) >>> (7 - kix % 8) &&& 1

/-- `func (k *Key) SetBit(bix int, v int)`:
`k.k[off] = (k.k[off] &^ byte(1<<bitpos)) | byte(v<<bitpos)`.
The Go and-not mask `&^ byte(1<<bitpos)` equals `&&& (255 ^^^ (1 <<< bitpos))`
on bytes. -/
def Key.SetBit (key : Key) (bix : Nat) (v : Nat) : Key :=
  let kix := key.msbBix + bix
  let off := kix / 8
  let bitpos := 7 - kix % 8
  { key with
    k := key.k.set off
      ((byteAt key.k off &&& (255 ^^^ (1 <<< bitpos))) ||| (v <<< bitpos)) }

/-- `func (k *Key) DropBits(count int) { k.msbBix += count }`. -/
def Key.DropBits (key : Key) (count : Nat) : Key :=
  { key with msbBix := key.msbBix + count }

/-- `func (k *Key) SplitAtObviouslyCorrect(ix int) (pfx, sfx Key)`:
clone `k`, allocate a fresh `(ix+7)/8`-byte slice for the prefix, copy the
first `ix` bits one at a time with `GetBit`/`SetBit`, then `DropBits(ix)`
on the clone to form the suffix. -/
def Key.SplitAtObviouslyCorrect (key : Key) (ix : Nat) : Key × Key :=
  let nbytes := (ix + 7) / 8
  let pfx0 : Key := { k := List.replicate nbytes 0, msbBix := 8 * nbytes - ix }
  let sfx := key
  let pfx := (List.range ix).foldl (fun p jx => p.SetBit jx (sfx.GetBit jx)) pfx0
  (pfx, sfx.DropBits ix)

/-- The byte-copy loop of `Key.SplitAt` (`for kx := nb; kx > 0;`), returning
the populated prefix slice `pfxK` of length `kx`.  Iteration with counter
value `kx+1` writes index `kx`; the recursive call fills indices `0..kx-1`,
so the produced entry is appended at the end.  The Go `byte(b<<numHiBits)`
cast is the `% 256`. -/
def splitAtCopy (bs : List Nat) (hi lo : Nat) (par : Nat) (jx : Int) :
    Nat → List Nat
  | 0 => []
  | kx + 1 =>
    let b := byteAtI bs jx
    (splitAtCopy bs hi lo (b >>> lo) (jx - 1) kx) ++ [par ||| ((b <<< hi) % 256)]

/-- `func (k *Key) SplitAt(ix int) (pfx, sfx Key)`: the optimized split.
If the split position is byte aligned the slices are shared; otherwise the
prefix bytes are produced by the shift-copy loop `splitAtCopy`. -/
def Key.SplitAt (key : Key) (ix : Nat) : Key × Key :=
  let splitBix := ix + key.msbBix
  if splitBix % 8 == 0 then
    ({ k := key.k.take (splitBix / 8), msbBix := key.msbBix },
     { k := key.k, msbBix := splitBix })
  else
    let nb := (ix + 7) / 8
    let boundary := splitBix / 8
    let numHiBits := splitBix % 8
    let numLowBits := 8 - numHiBits
    let pfxK := splitAtCopy key.k numHiBits numLowBits
      (byteAt key.k boundary >>> numLowBits) ((boundary : Int) - 1) nb
    ({ k := pfxK, msbBix := 8 * nb - ix },
     { k := key.k, msbBix := splitBix })

/-- Bitwise equality of two key descriptors viewed as bit strings: same
number of bits and the same `GetBit` value at every position. -/
def Key.BitEq (a b : Key) : Prop :=
  a.NumBits = b.NumBits ∧ ∀ pos < a.NumBits, a.GetBit pos = b.GetBit pos

instance (a b : Key) : Decidable (a.BitEq b) := by
  unfold Key.BitEq; infer_instance

end Alg

/-! Association lists with `Nat` keys, modelling Go maps (and `sync.Map`). -/

/-- Go map read `m[k]` (first matching entry; keys are kept unique). -/
def lookupA {α : Type} (l : List (Nat × α)) (k : Nat) : Option α :=
  match l with
  | [] => none
  | (k', v) :: t => if k' = k then some v else lookupA t k

/-- Go map delete `delete(m, k)`. -/
def eraseA {α : Type} (l : List (Nat × α)) (k : Nat) : List (Nat × α) :=
  match l with
  | [] => []
  | (k', v) :: t => if k' = k then t else (k', v) :: eraseA t k

/-- Go map write `m[k] = v`. -/
def updateA {α : Type} (l : List (Nat × α)) (k : Nat) (v : α) : List (Nat × α) :=
  match l with
  | [] => [(k, v)]
  | (k', v') :: t => if k' = k then (k, v) :: t else (k', v') :: updateA t k v

namespace Mux

/-- A multiplexed ABCI application as registered with the mux
(`Application` interface); only the identity and owned transaction methods
matter for the dispatch-order claims. -/
structure App where
  name : String
  methods : List String
deriving Repr, DecidableEq

/-- The mux's registry of sub-applications (`appsByName`, kept as the list
of registered applications; registration enforces distinct names and
globally distinct methods). -/
structure AppRegistry where
  apps : List App
deriving Repr

/-- `abciMux.rebuildAppLexOrdering`: collect the registered names, sort
them (`sort.Strings`) and list the applications in that order. -/
def rebuildAppLexOrdering (reg : AppRegistry) : List App :=
  reg.apps.mergeSort (fun a b => a.name ≤ b.name)

/-- `mux.appsByMethod[m]`: the unique application owning method `m`
(the map is populated at registration, which rejects duplicate methods). -/
def appsByMethod (reg : AppRegistry) (m : String) : Option App :=
  reg.apps.find? (fun a => a.methods.contains m)

/-- The sub-application hooks whose dispatch order the mux defines. -/
inductive Hook
  | initChain | beginBlock | endBlock | fireTimer | executeTx | foreignExecuteTx
deriving Repr, DecidableEq

/-- A lifecycle loop `for _, app := range mux.appsByLexOrder { app.<hook>(...) }`,
recorded as the trace of (application name, hook) invocations. -/
def lifecycleTrace (reg : AppRegistry) (h : Hook) : List (String × Hook) :=
  (rebuildAppLexOrdering reg).map (fun a => (a.name, h))

/-- `abciMux.InitChain`: one `InitChain` per application in lex order. -/
def initChainTrace (reg : AppRegistry) : List (String × Hook) :=
  lifecycleTrace reg .initChain

/-- `abciMux.BeginBlock` (non-halt path): one `BeginBlock` per application
in lex order. -/
def beginBlockTrace (reg : AppRegistry) : List (String × Hook) :=
  lifecycleTrace reg .beginBlock

/-- `abciMux.EndBlock` (non-halt path): first `fireTimers` for every
application in lex order, then `EndBlock` for every application in lex
order. -/
def endBlockTrace (reg : AppRegistry) : List (String × Hook) :=
  lifecycleTrace reg .fireTimer ++ lifecycleTrace reg .endBlock

/-- `abciMux.processTx` (after transaction authentication): route by
method to the owning application's `ExecuteTx`, then run
`ForeignExecuteTx` on every other application in lex order; unknown
methods fail. -/
def processTxTrace (reg : AppRegistry) (method : String) :
    Option (List (String × Hook)) :=
  match appsByMethod reg method with
  | none => none
  | some app =>
    some ((app.name, .executeTx) ::
      ((rebuildAppLexOrdering reg).filter (fun a => a ≠ app)).map
        (fun a => (a.name, .foreignExecuteTx)))

/-! ### Halt-epoch handling (`mux.go`, C4) -/

/-- The halt-relevant portion of `ApplicationState`: the configured halt
epoch, the sticky halt-mode flag, and the epoch oracle's answer for
`GetEpoch(blockHeight+1)` (`none` models an oracle error). -/
structure HaltState where
  haltMode : Bool
  haltEpochHeight : Nat
  epochAtNextHeight : Option Nat
deriving Repr, DecidableEq

/-- `ApplicationState.inHaltEpoch`: query the epoch at the next height; on
error report `false` (without touching `haltMode`), otherwise set
`haltMode = (epoch == haltEpochHeight)` and return it. -/
def inHaltEpoch (s : HaltState) : Bool × HaltState :=
  match s.epochAtNextHeight with
  | none => (false, s)
  | some e =>
    (e == s.haltEpochHeight, { s with haltMode := e == s.haltEpochHeight })

/-- `ApplicationState.afterHaltEpoch`: epoch at the next height is
strictly past the halt epoch (`false` on oracle error). -/
def afterHaltEpoch (s : HaltState) : Bool :=
  match s.epochAtNextHeight with
  | none => false
  | some e => s.haltEpochHeight < e

/-- Observable outcome of `abciMux.BeginBlock`.  `haltTransition` lists the
registered halt hooks in dispatch order; `haltEmpty` is the empty response
while halted; `panicked` is the post-halt-epoch panic; `normal` is regular
sub-application dispatch. -/
inductive BeginBlockOutcome
  | haltTransition (hooksFired : List Nat)
  | haltEmpty
  | panicked
  | normal
deriving Repr, DecidableEq

/-- The halt-mode dispatch of `abciMux.BeginBlock` (the `switch
mux.state.haltMode`), with `haltHooks` the registered halt hooks. -/
def beginBlock (s : HaltState) (haltHooks : List Nat) :
    BeginBlockOutcome × HaltState :=
  match s.haltMode with
  | false =>
    let (inHalt, s') := inHaltEpoch s
    if !inHalt then (.normal, s')
    else (.haltTransition haltHooks, s')
  | true =>
    if !afterHaltEpoch s then (.haltEmpty, s)
    else (.panicked, s)

/-- The halt-mode guard at the top of `abciMux.decodeTx`: in halt mode,
every transaction is rejected before decoding. -/
def decodeTxHaltCheck (s : HaltState) : Except String Unit :=
  if s.haltMode then .error "halt mode, rejecting all transactions"
  else .ok ()

/-- Observable outcome of `abciMux.EndBlock`. -/
inductive EndBlockOutcome
  | empty
  | normal
deriving Repr, DecidableEq

/-- The halt-mode guard of `abciMux.EndBlock`: while halted, return the
empty response without dispatching anything. -/
def endBlockHalt (s : HaltState) : EndBlockOutcome :=
  if s.haltMode then .empty else .normal

/-! ### Mempool invalidation notification (`mux.go`, C5) -/

/-- A mempool-invalidation subscriber's notification channel
(`invalidatedTxSubscription.resultCh`, an unbuffered Go channel) as
observed from the mux side: `delivered` are the values a receiver has
taken, `closed` the channel state, and `receiverReady` models a receiver
currently blocked on the channel (the non-blocking
`select { case ch <- err: default: }` succeeds exactly then). -/
structure Channel where
  delivered : List String
  closed : Bool
  receiverReady : Bool
deriving Repr, DecidableEq

/-- `mux.invalidatedTxs`: transaction hash ↦ subscription channel. -/
structure InvalidatedTxs where
  subs : List (Nat × Channel)
deriving Repr, DecidableEq

/-- The non-blocking send `select { case sub.resultCh <- err: default: }`. -/
def trySend (ch : Channel) (e : String) : Channel :=
  if ch.receiverReady && !ch.closed then
    { ch with delivered := ch.delivered ++ [e], receiverReady := false }
  else ch

/-- The re-check failure path inside `abciMux.CheckTx`: if a subscriber is
registered for the transaction's hash, send it the error (non-blocking),
close the channel, and delete the subscription.  Returns the new map and
the final channel state observed by the subscriber (`none` when no
subscriber was registered). -/
def recheckFailNotify (m : InvalidatedTxs) (txHash : Nat) (e : String) :
    InvalidatedTxs × Option Channel :=
  match lookupA m.subs txHash with
  | none => (m, none)
  | some ch =>
    let ch' := { trySend ch e with closed := true }
    ({ subs := eraseA m.subs txHash }, some ch')

/-- The notification-relevant behaviour of `abciMux.CheckTx`: a
notification is attempted exactly when transaction execution failed and
the request is a re-check (`req.Type == types.CheckTxType_Recheck`). -/
def checkTxNotify (m : InvalidatedTxs) (isRecheck : Bool) (txHash : Nat)
    (execResult : Except String Unit) : InvalidatedTxs × Option Channel :=
  match execResult with
  | .ok _ => (m, none)
  | .error e =>
    if isRecheck then recheckFailNotify m txHash e
    else (m, none)

/-- `abciMux.watchInvalidatedTx`: register a subscription for a hash,
failing when one already exists (`LoadOrStore`). -/
def watchInvalidatedTx (m : InvalidatedTxs) (txHash : Nat) (ch : Channel) :
    Except String InvalidatedTxs :=
  match lookupA m.subs txHash with
  | some _ => .error "mux: transaction already exists"
  | none => .ok { subs := m.subs ++ [(txHash, ch)] }

end Mux

namespace Registry

abbrev PublicKey := Nat
abbrev NamespaceId := Nat

/-- `EntityWhitelistRuntimeAdmissionPolicy`: `Entities map[PublicKey]bool`. -/
structure EntityWhitelistPolicy where
  entities : List (PublicKey × Bool)
deriving Repr, DecidableEq

/-- `RuntimeAdmissionPolicy`: a struct of optional variants; `registerNode`
only inspects `EntityWhitelist` (a `nil` whitelist — e.g. `AnyNode` —
admits every entity). -/
structure RuntimeAdmissionPolicy where
  entityWhitelist : Option EntityWhitelistPolicy
deriving Repr, DecidableEq

/-- The fields of `registry.Runtime` that `registerNode` reads. -/
structure Runtime where
  id : NamespaceId
  admissionPolicy : RuntimeAdmissionPolicy
deriving Repr, DecidableEq

/-- A runtime entry in a node descriptor (`node.Runtime`). -/
structure NodeRuntime where
  id : NamespaceId
deriving Repr, DecidableEq

/-- The fields of `node.Node` that `registerNode` reads. -/
structure Node where
  id : PublicKey
  entityID : PublicKey
  expiration : Nat
  runtimes : List NodeRuntime
deriving Repr, DecidableEq

/-- Modelled from the spec: `node.IsExpired` (the node descriptor code is
not under src).  A registered node is live while the epoch has not passed
its expiration epoch; `registerNode`'s own comment states that a node
whose expiration equals the current epoch is "technically not yet
expired". -/
def Node.IsExpired (n : Node) (epoch : Nat) : Bool :=
  n.expiration < epoch

/-- `registry.NodeStatus`. -/
structure NodeStatus where
  freezeEndTime : Nat
  expirationProcessed : Bool
deriving Repr, DecidableEq

/-- Gas cost table (`params.GasCosts`) restricted to the operations
`registerNode` charges. -/
structure GasCosts where
  opRegisterNode : Nat
  opRuntimeEpochMaintenance : Nat
deriving Repr, DecidableEq

/-- `registry.ConsensusParameters` restricted to what `registerNode`
reads. -/
structure ConsensusParameters where
  debugBypassStake : Bool
  gasCosts : GasCosts
deriving Repr, DecidableEq

/-- The registry application's state reachable from `registerNode` via
`registryState.MutableState`. -/
structure RegistryState where
  params : ConsensusParameters
  entities : List PublicKey
  runtimes : List (NamespaceId × Runtime)
  suspendedRuntimes : List (NamespaceId × Runtime)
  nodes : List (PublicKey × Node)
  nodeStatuses : List (PublicKey × NodeStatus)
deriving Repr, DecidableEq

/-- Errors surfaced by `registerNode` (`registry/api` error values and the
gas accountant's `OutOfGas`). -/
inductive RegError
  | decodeFailed
  | entityNotFound
  | verifyArgsFailed
  | outOfGas
  | incorrectTxSigner
  | noSuchRuntime
  | forbidden
  | insufficientStake
  | nodeExpired
  | invalidArgument
  | badEntityForNode
  | nodeUpdateForbidden
deriving Repr, DecidableEq

/-- Modelled from the spec: the per-transaction gas accountant
(`abci.GasAccountant`, not under src).  `use_gas(n_ops, op_kind, cost_table)`
deducts `n_ops × cost_table[op_kind]` and fails with `OutOfGas` exactly when
the cap would be exceeded. -/
structure GasAccountant where
  maxUsedGas : Nat
  usedGas : Nat
deriving Repr, DecidableEq

def GasAccountant.UseGas (g : GasAccountant) (multiplier : Nat) (cost : Nat) :
    Except RegError GasAccountant :=
  let amount := cost * multiplier
  if g.maxUsedGas < g.usedGas + amount then .error .outOfGas
  else .ok { g with usedGas := g.usedGas + amount }

/-- Events emitted by `registerNode`. -/
inductive Event
  | runtimeRegistered (id : NamespaceId)
  | nodeRegistered (n : Node)
deriving Repr, DecidableEq

/-- The per-invocation inputs of `registerNode` that come from the
transaction context or from code outside src.  The `Option`-valued fields
are oracles for the outcomes of the missing helpers. -/
structure RegisterNodeEnv where
  isCheckOnly : Bool
  isInitChain : Bool
  txSigner : PublicKey
  /-- `sigNode.Signature.PublicKey`. -/
  sigNodePublicKey : PublicKey
  /-- Outcome of `cbor.Unmarshal(sigNode.Blob, &untrustedNode)`;
  `none` models a decode failure. -/
  untrustedNode : Option Node
  /-- Modelled from the spec: outcome of `registry.VerifyRegisterNodeArgs`
  (registry/api is not under src) — on success, the verified node
  descriptor and the runtimes the node pays maintenance fees for. -/
  verifyRegisterNodeArgs : Option (Node × List Runtime)
  /-- `app.state.GetEpoch(ctx.Ctx(), ctx.BlockHeight()+1)`. -/
  epochAtNextHeight : Nat
  /-- Modelled from the spec: outcome of the staking
  `EnsureSufficientStake(entity, [KindEntity])` re-check (staking state
  accessors are not under src); `true` means sufficient stake. -/
  entityHasSufficientStake : Bool
  /-- Modelled from the spec: outcome of
  `stakeCache.EnsureNodeRegistrationStake(entity, n)` for `n` nodes. -/
  nodeRegistrationStakeOk : Nat → Bool
  /-- Modelled from the spec: outcome of `registry.VerifyNodeUpdate`
  (immutable-field admissibility of a live-node update). -/
  verifyNodeUpdateOk : Bool

/-- The whitelist loop of `registerNode` (`// Check runtime's whitelist.`):
for each runtime the node claims, load it (failing if absent) and reject
with `ErrForbidden` when it has an `EntityWhitelist` admission policy that
does not map the node's entity to `true`. -/
def checkRuntimeWhitelist (st : RegistryState) (entityID : PublicKey) :
    List NodeRuntime → Except RegError Unit
  | [] => .ok ()
  | nrt :: rest =>
    match lookupA st.runtimes nrt.id with
    | none => .error .noSuchRuntime
    | some rt =>
      match rt.admissionPolicy.entityWhitelist with
      | some wl =>
        if (lookupA wl.entities entityID).getD false then
          checkRuntimeWhitelist st entityID rest
        else .error .forbidden
      | none => checkRuntimeWhitelist st entityID rest

/-- The maintenance-fee epoch count (`additionalEpochs`, lines computing
the `GasOpRuntimeEpochMaintenance` charge): the full
`expiration − epoch` for a new or expired node; for an existing live
node, remaining epochs are credited. -/
def maintenanceAdditionalEpochs (epoch newExpiration : Nat)
    (existingNode : Option Node) : Nat :=
  let base := newExpiration - epoch
  match existingNode with
  | none => base
  | some ex =>
    if ex.IsExpired epoch then base
    else
      let remaining := ex.expiration - epoch
      if remaining < base then base - remaining else 0

/-- `state.NumEntityNodes(entityID)`. -/
def numEntityNodes (st : RegistryState) (entityID : PublicKey) : Nat :=
  (st.nodes.filter (fun p => p.2.entityID == entityID)).length

/-- `state.SetNode`. -/
def setNode (st : RegistryState) (n : Node) : RegistryState :=
  { st with nodes := updateA st.nodes n.id n }

/-- `state.SetNodeStatus`. -/
def setNodeStatus (st : RegistryState) (id : PublicKey) (s : NodeStatus) :
    RegistryState :=
  { st with nodeStatuses := updateA st.nodeStatuses id s }

/-- `state.ResumeRuntime`: move a runtime from the suspended set to the
active set; `ErrNoSuchRuntime` (runtime not suspended) is ignored by the
caller. -/
def resumeRuntime (st : RegistryState) (id : NamespaceId) :
    Option RegistryState :=
  match lookupA st.suspendedRuntimes id with
  | none => none
  | some rt =>
    some { st with
      suspendedRuntimes := eraseA st.suspendedRuntimes id,
      runtimes := updateA st.runtimes id rt }

/-- The resume loop of `registerNode` (`// If a runtime was previously
suspended ...`): resume every paid runtime that is suspended, emitting
`RuntimeRegistered` for each. -/
def resumePaidRuntimes (st : RegistryState) (events : List Event) :
    List Runtime → RegistryState × List Event
  | [] => (st, events)
  | rt :: rest =>
    match resumeRuntime st rt.id with
    | some st' =>
      resumePaidRuntimes st' (events ++ [.runtimeRegistered rt.id]) rest
    | none => resumePaidRuntimes st events rest

/-- The post-checkpoint phase of `registerNode` (everything after
`ctx.NewStateCheckpoint()`).  On any failure the checkpoint is rolled
back, so every error case returns the entry state `st` unchanged. -/
def registerNodeCommit (env : RegisterNodeEnv) (st : RegistryState)
    (gas : GasAccountant) (newNode : Node) (paidRuntimes : List Runtime)
    (nNodes : Nat) (isNewNode isExpiredNode : Bool)
    (existingNode : Option Node) :
    Except RegError Unit × RegistryState × GasAccountant × List Event :=
  if isNewNode || isExpiredNode then
    if !st.params.debugBypassStake
        && !(env.nodeRegistrationStakeOk (nNodes + 1)) then
      (.error .insufficientStake, st, gas, [])
    else
      let st1 := setNode st newNode
      let statusResult : Except RegError NodeStatus :=
        match existingNode with
        | some _ =>
          match lookupA st.nodeStatuses newNode.id with
          | none => .error .invalidArgument
          | some status => .ok { status with expirationProcessed := false }
        | none => .ok { freezeEndTime := 0, expirationProcessed := false }
      match statusResult with
      | .error e => (.error e, st, gas, [])
      | .ok status =>
        let st2 := setNodeStatus st1 newNode.id status
        let (st3, events) := resumePaidRuntimes st2 [] paidRuntimes
        (.ok (), st3, gas, events ++ [.nodeRegistered newNode])
  else
    if !st.params.debugBypassStake
        && !(env.nodeRegistrationStakeOk nNodes) then
      (.error .insufficientStake, st, gas, [])
    else if !env.verifyNodeUpdateOk then
      (.error .nodeUpdateForbidden, st, gas, [])
    else
      let st1 := setNode st newNode
      let (st2, events) := resumePaidRuntimes st1 [] paidRuntimes
      (.ok (), st2, gas, events ++ [.nodeRegistered newNode])

/-- The steps of `registerNode` after the admission-policy loop: the
entity stake re-check, the next-epoch expiration check, the
runtime-maintenance gas charge, and then the checkpointed commit
phase. -/
def registerNodePostPolicy (env : RegisterNodeEnv) (st : RegistryState)
    (gas1 : GasAccountant) (newNode : Node) (paidRuntimes : List Runtime) :
    Except RegError Unit × RegistryState × GasAccountant × List Event :=
  if !st.params.debugBypassStake && !env.entityHasSufficientStake then
    (.error .insufficientStake, st, gas1, [])
  else
    let nNodes := numEntityNodes st newNode.entityID
    let epoch := env.epochAtNextHeight
    if newNode.expiration ≤ epoch then
      (.error .nodeExpired, st, gas1, [])
    else
      let existingNode := lookupA st.nodes newNode.id
      let isNewNode := existingNode.isNone
      let isExpiredNode :=
        match existingNode with
        | some ex => ex.IsExpired epoch
        | none => false
      let addEpochs :=
        maintenanceAdditionalEpochs epoch newNode.expiration existingNode
      let feeCount := paidRuntimes.length * addEpochs
      match gas1.UseGas feeCount st.params.gasCosts.opRuntimeEpochMaintenance with
      | .error e => (.error e, st, gas1, [])
      | .ok gas2 =>
        registerNodeCommit env st gas2 newNode paidRuntimes nNodes
          isNewNode isExpiredNode existingNode

/-- `registryApplication.registerNode`, translated step by step from the
source.  The result carries the final registry state (all state writes
happen after the checkpoint and are rolled back on failure), the final
gas accountant (gas is never refunded), and the emitted events. -/
def registerNode (env : RegisterNodeEnv) (st : RegistryState)
    (gas : GasAccountant) :
    Except RegError Unit × RegistryState × GasAccountant × List Event :=
  if env.isCheckOnly then (.ok (), st, gas, [])
  else match env.untrustedNode with
  | none => (.error .decodeFailed, st, gas, [])
  | some untrustedNode =>
    if !(st.entities.contains untrustedNode.entityID) then
      (.error .entityNotFound, st, gas, [])
    else match env.verifyRegisterNodeArgs with
    | none => (.error .verifyArgsFailed, st, gas, [])
    | some (newNode, paidRuntimes) =>
      let gasStep : Except RegError GasAccountant :=
        if env.sigNodePublicKey == newNode.entityID then
          gas.UseGas 1 st.params.gasCosts.opRegisterNode
        else .ok gas
      match gasStep with
      | .error e => (.error e, st, gas, [])
      | .ok gas1 =>
        if !env.isInitChain && !(env.sigNodePublicKey == env.txSigner) then
          (.error .incorrectTxSigner, st, gas1, [])
        else match checkRuntimeWhitelist st newNode.entityID newNode.runtimes with
        | .error e => (.error e, st, gas1, [])
        | .ok _ => registerNodePostPolicy env st gas1 newNode paidRuntimes

end Registry

namespace KeyManager

abbrev Checksum := List Nat
abbrev PolicyDoc := Nat

/-- `api.ChecksumSize`. -/
def ChecksumSize : Nat := 32

/-- A key manager's init response as recovered by `api.VerifyExtraInfo`. -/
structure InitResponse where
  isSecure : Bool
  checksum : Checksum
  policyChecksum : List Nat
deriving Repr, DecidableEq

/-- A runtime entry of a node descriptor, with the TEE capability
(`Capabilities.TEE`, `none` when absent) and an oracle for
`api.VerifyExtraInfo` (keymanager/api is not under src): `none` models a
failed extra-info verification (bad signature or staleness), `some r` the
verified init response.  The oracle is "Modelled from the spec". -/
structure NodeRuntime where
  id : Nat
  teeHardware : Option Nat
  extraInfoResult : Option InitResponse
deriving Repr, DecidableEq

/-- The fields of `node.Node` that `generateStatus` reads. -/
structure KmNode where
  id : Nat
  hasKeyManagerRole : Bool
  runtimes : List NodeRuntime
deriving Repr, DecidableEq

/-- `registry.Runtime` fields read here; `teeHardware = 0` is
`node.TEEHardwareInvalid`. -/
inductive RuntimeKind
  | compute
  | keyManager
deriving Repr, DecidableEq

structure KmRuntime where
  id : Nat
  kind : RuntimeKind
  teeHardware : Nat
deriving Repr, DecidableEq

/-- `keymanager.api.Status`.  Status comparison in `onEpochChange` is by
canonical-CBOR byte equality, which for these records coincides with
structural equality. -/
structure Status where
  id : Nat
  isInitialized : Bool
  isSecure : Bool
  checksum : Checksum
  policy : Option PolicyDoc
  nodes : List Nat
deriving Repr, DecidableEq

/-- `n.Runtimes` scan: the first runtime entry matching the key-manager
runtime's ID. -/
def findNodeRuntime (n : KmNode) (id : Nat) : Option NodeRuntime :=
  n.runtimes.find? (fun rt => rt.id == id)

/-- The node's reported policy checksum, parsed as in the source: an
empty checksum stands for the hash of the empty policy
(`emptyHashSha3`), a `ChecksumSize`-byte one for itself, anything else
is rejected (`default: continue`). -/
def nodePolicyHash (hashPolicy : Option PolicyDoc → Checksum)
    (initResponse : InitResponse) : Option Checksum :=
  if initResponse.policyChecksum.length == 0 then some (hashPolicy none)
  else if initResponse.policyChecksum.length == ChecksumSize then
    some initResponse.policyChecksum
  else none

/-- The guard sequence of the node loop in `generateStatus`: the node is
*acceptable* (yields a verified init response) when it has the
key-manager role, lists the runtime, matches the TEE hardware, passes
`VerifyExtraInfo`, and reports a policy checksum equal to the on-chain
policy's hash. -/
def acceptedResponse (hashPolicy : Option PolicyDoc → Checksum)
    (kmrt : KmRuntime) (status : Status) (n : KmNode) :
    Option InitResponse :=
  if !n.hasKeyManagerRole then none
  else match findNodeRuntime n kmrt.id with
  | none => none
  | some nodeRt =>
    let teeOk := match nodeRt.teeHardware with
      | none => kmrt.teeHardware == 0
      | some hw => kmrt.teeHardware == hw
    if !teeOk then none
    else match nodeRt.extraInfoResult with
    | none => none
    | some initResponse =>
      let policyHash := hashPolicy status.policy
      match nodePolicyHash hashPolicy initResponse with
      | none => none
      | some nodeHash =>
        if !(policyHash == nodeHash) then none
        else some initResponse

/-- One iteration of the node loop in
`keymanagerApplication.generateStatus`: the acceptance guards, then
either record the first acceptable node's `(is_secure, checksum)`
(uninitialized case, where only a secure-status regression is refused)
or require agreement (initialized case); accepted nodes are appended to
the status's node list.  `hashPolicy` abstracts
`sha3.Sum256(cbor.Marshal(policy))`, with `hashPolicy none =
sha3.Sum256(nil)` (the `emptyHashSha3` of the source). -/
def generateStatusStep (hashPolicy : Option PolicyDoc → Checksum)
    (kmrt : KmRuntime) (status : Status) (n : KmNode) : Status :=
  match acceptedResponse hashPolicy kmrt status n with
  | none => status
  | some initResponse =>
        if status.isInitialized then
          if !(initResponse.isSecure == status.isSecure) then status
          else if !(initResponse.checksum == status.checksum) then status
          else { status with nodes := status.nodes ++ [n.id] }
        else
          if !(initResponse.isSecure == status.isSecure)
              && !initResponse.isSecure then status
          else
            { status with
              isSecure := initResponse.isSecure,
              isInitialized := true,
              checksum := initResponse.checksum,
              nodes := status.nodes ++ [n.id] }

/-- `keymanagerApplication.generateStatus`: recompute a key-manager
runtime's status from the (sorted) node list, starting from the old
status with an empty node list. -/
def generateStatus (hashPolicy : Option PolicyDoc → Checksum)
    (kmrt : KmRuntime) (oldStatus : Status) (nodes : List KmNode) : Status :=
  nodes.foldl (generateStatusStep hashPolicy kmrt)
    { id := kmrt.id,
      isInitialized := oldStatus.isInitialized,
      isSecure := oldStatus.isSecure,
      checksum := oldStatus.checksum,
      policy := oldStatus.policy,
      nodes := [] }

/-- The key-manager application's on-chain state: runtime ID ↦ status. -/
structure KmState where
  statuses : List (Nat × Status)
deriving Repr, DecidableEq

/-- One runtime's pass of `keymanagerApplication.onEpochChange`: skip
non-key-manager runtimes; a missing previous status forces the emit;
otherwise the recomputed status is stored and enqueued for emission only
when it differs from the stored one. -/
def onEpochChangeStep (hashPolicy : Option PolicyDoc → Checksum)
    (nodes : List KmNode) (acc : KmState × List Status) (rt : KmRuntime) :
    KmState × List Status :=
  if rt.kind ≠ RuntimeKind.keyManager then acc
  else
    let (oldStatus, forceEmit) :=
      match lookupA acc.1.statuses rt.id with
      | none =>
        ({ id := rt.id, isInitialized := false, isSecure := false,
           checksum := [], policy := none, nodes := [] }, true)
      | some s => (s, false)
    let newStatus := generateStatus hashPolicy rt oldStatus nodes
    if forceEmit || newStatus ≠ oldStatus then
      ({ statuses := updateA acc.1.statuses rt.id newStatus },
       acc.2 ++ [newStatus])
    else acc

/-- `keymanagerApplication.onEpochChange`: recompute every key-manager
runtime's status; return the new state and the statuses enqueued for the
`KeyStatusUpdate` event. -/
def onEpochChange (hashPolicy : Option PolicyDoc → Checksum)
    (runtimes : List KmRuntime) (nodes : List KmNode) (st : KmState) :
    KmState × List Status :=
  runtimes.foldl (onEpochChangeStep hashPolicy nodes) (st, [])

end KeyManager

namespace Staking

/-- Token quantities (`quantity.Quantity`): arbitrary-precision integers
whose validity (`IsValid`) is non-negativity. -/
abbrev Quantity := Int

def Quantity.IsValid (q : Quantity) : Bool := 0 ≤ q

/-- A share pool of a staking account (`staking.SharePool`). -/
structure SharePool where
  balance : Quantity
  totalShares : Quantity
deriving Repr, DecidableEq

/-- A staking account (`staking.Account`), restricted to what the
supplementary-sanity staking check reads. -/
structure Account where
  general : Quantity
  escrowActive : SharePool
  escrowDebonding : SharePool
deriving Repr, DecidableEq

/-- A delegation / debonding delegation record (only the shares matter to
the sanity check). -/
structure Delegation where
  shares : Quantity
deriving Repr, DecidableEq

/-- The staking state reachable from `checkStaking` via
`stakingState.MutableState`: total supply, common pool, last-block fees,
the account ledger, and the (de)bonding delegation maps keyed by escrow
account. -/
structure StakingState where
  totalSupply : Quantity
  commonPool : Quantity
  lastBlockFees : Quantity
  accounts : List (Nat × Account)
  delegations : List (Nat × List Delegation)
  debondingDelegations : List (Nat × List Delegation)
deriving Repr, DecidableEq

def lookupAccount (st : StakingState) (id : Nat) : Account :=
  (lookupA st.accounts id).getD
    { general := 0,
      escrowActive := { balance := 0, totalShares := 0 },
      escrowDebonding := { balance := 0, totalShares := 0 } }

/-- Modelled from the spec: `staking.SanityCheckAccount` (staking/api is
not under src).  Per the spec's supply-conservation sweep it accumulates
`general + escrow_active.balance + escrow_debonding.balance` into the
running total, rejecting invalid (negative) balances.  (The commission-
schedule checks the Go helper also performs are outside this model.) -/
def sanityCheckAccount (total : Quantity) (a : Account) :
    Except String Quantity :=
  if !a.general.IsValid || !a.escrowActive.balance.IsValid
      || !a.escrowDebonding.balance.IsValid then
    .error "account balance invalid"
  else
    .ok (total + a.general + a.escrowActive.balance + a.escrowDebonding.balance)

def sumShares (ds : List Delegation) : Quantity :=
  ds.foldl (fun acc d => acc + d.shares) 0

/-- Modelled from the spec: `staking.SanityCheckDelegations` — all shares
of all delegations to an account must add up to the account's
`Escrow.Active.TotalShares`. -/
def sanityCheckDelegations (a : Account) (ds : List Delegation) :
    Except String Unit :=
  if sumShares ds = a.escrowActive.totalShares then .ok ()
  else .error "delegation shares do not add up"

/-- Modelled from the spec: `staking.SanityCheckDebondingDelegations` —
analogous for the debonding pool. -/
def sanityCheckDebondingDelegations (a : Account) (ds : List Delegation) :
    Except String Unit :=
  if sumShares ds = a.escrowDebonding.totalShares then .ok ()
  else .error "debonding delegation shares do not add up"

/-- Modelled from the spec: `staking.SanityCheckAccountShares` — the two
share-accounting invariants checked per account. -/
def sanityCheckAccountShares (a : Account) (ds dds : List Delegation) :
    Except String Unit :=
  match sanityCheckDelegations a ds with
  | .error e => .error e
  | .ok _ => sanityCheckDebondingDelegations a dds

/-- Helper for the account loop of `checkStaking`. -/
def sumAccounts (st : StakingState) : List (Nat × Account) →
    Except String Quantity → Except String Quantity
  | [], acc => acc
  | (_, a) :: rest, acc =>
    match acc with
    | .error e => .error e
    | .ok total =>
      sumAccounts st rest (sanityCheckAccount total a)

/-- The full sum the claim is about: all general, active-escrow and
debonding-escrow balances, plus the common pool and the last-block
fees. -/
def totalBalances (st : StakingState) : Quantity :=
  (st.accounts.foldl
    (fun acc p =>
      acc + p.2.general + p.2.escrowActive.balance + p.2.escrowDebonding.balance)
    0) + st.commonPool + st.lastBlockFees

/-- `supplementarysanity.checkStaking`, translated step by step: validate
total supply and common pool, sum all account balances (via
`SanityCheckAccount`), validate last-block fees, compare the sum +
common pool + fees against the total supply, then check the
(de)bonding share-accounting invariants. -/
def checkStaking (st : StakingState) : Except String Unit :=
  if !st.totalSupply.IsValid then .error "total supply is invalid"
  else if !st.commonPool.IsValid then .error "common pool is invalid"
  else match sumAccounts st st.accounts (.ok 0) with
  | .error e => .error e
  | .ok total0 =>
    if !st.lastBlockFees.IsValid then .error "last block fees invalid"
    else
      let total := total0 + st.commonPool + st.lastBlockFees
      if total ≠ st.totalSupply then
        .error "balances plus common pool do not add up to total supply"
      else
        let delegationCheck :=
          st.delegations.foldl
            (fun acc p =>
              match acc with
              | .error e => Except.error e
              | .ok _ => sanityCheckDelegations (lookupAccount st p.1) p.2)
            (Except.ok ())
        match delegationCheck with
        | .error e => .error e
        | .ok _ =>
          let debondingCheck :=
            st.debondingDelegations.foldl
              (fun acc p =>
                match acc with
                | .error e => Except.error e
                | .ok _ =>
                  sanityCheckDebondingDelegations (lookupAccount st p.1) p.2)
              (Except.ok ())
          match debondingCheck with
          | .error e => .error e
          | .ok _ =>
            let perAccountCheck :=
              st.accounts.foldl
                (fun acc p =>
                  match acc with
                  | .error e => Except.error e
                  | .ok _ =>
                    sanityCheckAccountShares p.2
                      ((lookupA st.delegations p.1).getD [])
                      ((lookupA st.debondingDelegations p.1).getD []))
                (Except.ok ())
            perAccountCheck

end Staking

/-! ## Theorems -/

/-! ### Association-list lemmas -/

theorem lookupA_eq_none_of_not_mem {α : Type} (l : List (Nat × α)) (k : Nat)
    (h : k ∉ l.map Prod.fst) : lookupA l k = none := by
  induction l with
  | nil => rfl
  | cons hd t ih =>
    obtain ⟨k', v⟩ := hd
    simp only [List.map_cons, List.mem_cons] at h
    push_neg at h
    have hne : ¬(k' = k) := fun hk => h.1 hk.symm
    simp only [lookupA, if_neg hne]
    exact ih h.2

theorem lookupA_eraseA_self {α : Type} (l : List (Nat × α)) (k : Nat)
    (hnd : (l.map Prod.fst).Nodup) : lookupA (eraseA l k) k = none := by
  induction l with
  | nil => simp [eraseA, lookupA]
  | cons hd t ih =>
    obtain ⟨k', v⟩ := hd
    simp only [List.map_cons, List.nodup_cons] at hnd
    by_cases hk : k' = k
    · subst hk
      simp only [eraseA, if_pos rfl]
      exact lookupA_eq_none_of_not_mem t k' hnd.1
    · simp only [eraseA, if_neg hk, lookupA, if_neg hk]
      exact ih hnd.2

theorem lookupA_eraseA_none {α : Type} (l : List (Nat × α)) (k : Nat)
    (h : lookupA l k = none) : eraseA l k = l := by
  induction l with
  | nil => rfl
  | cons hd t ih =>
    obtain ⟨k', v⟩ := hd
    simp only [lookupA] at h
    by_cases hk : k' = k
    · simp [if_pos hk] at h
    · simp only [eraseA, if_neg hk]
      rw [ih (by simpa [if_neg hk] using h)]

/-! ### C4 — halt-epoch behaviour of the multiplexer -/

/-- **C4.** When the epoch at the next block height first equals the
configured halt epoch (halt mode not yet set), `BeginBlock` dispatches
all registered halt hooks in order and returns the empty response,
entering halt mode; while halt mode holds and the chain is not yet past
the halt epoch, every `BeginBlock` returns empty, every transaction is
rejected by `decodeTx`, and `EndBlock` returns empty; and when the epoch
at the next height is strictly greater than the halt epoch while in halt
mode, the multiplexer panics. -/
theorem mux_halt_epoch_behavior (s : Mux.HaltState) (hooks : List Nat)
    (e : Nat) :
    (s.haltMode = false → s.epochAtNextHeight = some s.haltEpochHeight →
      Mux.beginBlock s hooks =
        (.haltTransition hooks, { s with haltMode := true })) ∧
    (s.haltMode = true → s.epochAtNextHeight = some e →
      e ≤ s.haltEpochHeight → Mux.beginBlock s hooks = (.haltEmpty, s)) ∧
    (s.haltMode = true →
      Mux.decodeTxHaltCheck s =
          .error "halt mode, rejecting all transactions" ∧
        Mux.endBlockHalt s = .empty) ∧
    (s.haltMode = true → s.epochAtNextHeight = some e →
      s.haltEpochHeight < e → Mux.beginBlock s hooks = (.panicked, s)) := by
  refine ⟨?_, ?_, ?_, ?_⟩
  · intro hm he
    simp [Mux.beginBlock, hm, Mux.inHaltEpoch, he]
  · intro hm he hle
    simp [Mux.beginBlock, hm, Mux.afterHaltEpoch, he, Nat.not_lt.mpr hle]
  · intro hm
    exact ⟨by simp [Mux.decodeTxHaltCheck, hm], by simp [Mux.endBlockHalt, hm]⟩
  · intro hm he hlt
    simp [Mux.beginBlock, hm, Mux.afterHaltEpoch, he, hlt]

theorem mux_halt_epoch_behavior_witness :
    (Mux.beginBlock ⟨false, 5, some 5⟩ [1, 2] =
      (.haltTransition [1, 2], ⟨true, 5, some 5⟩)) ∧
    (Mux.beginBlock ⟨true, 5, some 5⟩ [1, 2] = (.haltEmpty, ⟨true, 5, some 5⟩)) ∧
    (Mux.decodeTxHaltCheck ⟨true, 5, some 5⟩ =
      .error "halt mode, rejecting all transactions") ∧
    (Mux.endBlockHalt ⟨true, 5, some 5⟩ = .empty) ∧
    (Mux.beginBlock ⟨true, 5, some 6⟩ [1, 2] = (.panicked, ⟨true, 5, some 6⟩)) :=
  ⟨(mux_halt_epoch_behavior ⟨false, 5, some 5⟩ [1, 2] 5).1 rfl rfl,
   (mux_halt_epoch_behavior ⟨true, 5, some 5⟩ [1, 2] 5).2.1 rfl rfl (by decide),
   ((mux_halt_epoch_behavior ⟨true, 5, some 5⟩ [1, 2] 5).2.2.1 rfl).1,
   ((mux_halt_epoch_behavior ⟨true, 5, some 5⟩ [1, 2] 5).2.2.1 rfl).2,
   (mux_halt_epoch_behavior ⟨true, 5, some 6⟩ [1, 2] 6).2.2.2 rfl rfl (by decide)⟩

/-! ### C5 — exactly-once mempool-invalidation notification -/

/-- **C5.** If `CheckTx` fails in the `Recheck` sub-mode and a subscriber
with an open channel is waiting on the transaction's hash, the
multiplexer delivers the failure error to that subscriber exactly once,
closes the channel, and removes the subscription, so a later failing
re-check of the same hash notifies nobody and leaves the map
unchanged. -/
theorem mux_recheck_notified_once (m : Mux.InvalidatedTxs) (h : Nat)
    (e e' : String) (ch : Mux.Channel)
    (hnd : (m.subs.map Prod.fst).Nodup)
    (hsub : lookupA m.subs h = some ch)
    (hready : ch.receiverReady = true) (hopen : ch.closed = false)
    (hempty : ch.delivered = []) :
    Mux.checkTxNotify m true h (.error e) =
      (⟨eraseA m.subs h⟩,
        some { delivered := [e], closed := true, receiverReady := false }) ∧
    lookupA (eraseA m.subs h) h = none ∧
    Mux.checkTxNotify ⟨eraseA m.subs h⟩ true h (.error e') =
      (⟨eraseA m.subs h⟩, none) := by
  have herase : lookupA (eraseA m.subs h) h = none := lookupA_eraseA_self _ _ hnd
  refine ⟨?_, herase, ?_⟩
  · simp [Mux.checkTxNotify, Mux.recheckFailNotify, hsub, Mux.trySend,
      hready, hopen, hempty]
  · simp [Mux.checkTxNotify, Mux.recheckFailNotify, herase]

theorem mux_recheck_notified_once_witness :
    Mux.checkTxNotify ⟨[(7, ⟨[], false, true⟩)]⟩ true 7 (.error "stale") =
      (⟨[]⟩, some { delivered := ["stale"], closed := true,
                    receiverReady := false }) ∧
    lookupA (eraseA ([(7, (⟨[], false, true⟩ : Mux.Channel))]) 7) 7 = none ∧
    Mux.checkTxNotify ⟨eraseA ([(7, (⟨[], false, true⟩ : Mux.Channel))]) 7⟩
        true 7 (.error "stale again") =
      (⟨eraseA ([(7, (⟨[], false, true⟩ : Mux.Channel))]) 7⟩, none) := by
  have := mux_recheck_notified_once ⟨[(7, ⟨[], false, true⟩)]⟩ 7 "stale"
    "stale again" ⟨[], false, true⟩ (by decide) (by decide) rfl rfl rfl
  exact ⟨by simpa [eraseA] using this.1, this.2.1, this.2.2⟩

/-! ### C6 — lexicographic dispatch order -/

theorem lexOrder_perm (reg : Mux.AppRegistry) :
    (Mux.rebuildAppLexOrdering reg).Perm reg.apps :=
  List.mergeSort_perm reg.apps _

theorem lexOrder_sorted (reg : Mux.AppRegistry)
    (hnd : (reg.apps.map Mux.App.name).Nodup) :
    ((Mux.rebuildAppLexOrdering reg).map Mux.App.name).Pairwise (· < ·) := by
  have hsort : (Mux.rebuildAppLexOrdering reg).Pairwise
      (fun a b : Mux.App => (decide (a.name ≤ b.name)) = true) := by
    refine List.sorted_mergeSort ?_ ?_ reg.apps
    · intro a b c hab hbc
      simp only [decide_eq_true_eq] at *
      exact le_trans hab hbc
    · intro a b
      simp only [Bool.or_eq_true, decide_eq_true_eq]
      exact le_total a.name b.name
  have hle : ((Mux.rebuildAppLexOrdering reg).map Mux.App.name).Pairwise (· ≤ ·) := by
    rw [List.pairwise_map]
    exact hsort.imp (fun h => by simpa using h)
  have hnd' : ((Mux.rebuildAppLexOrdering reg).map Mux.App.name).Nodup :=
    (((lexOrder_perm reg).map Mux.App.name).nodup_iff).mpr hnd
  exact (hle.and hnd').imp (fun h => lt_of_le_of_ne h.1 h.2)

/-- **C6.** For `InitChain`, `BeginBlock`, `EndBlock` and timer firing the
multiplexer invokes every registered sub-application exactly once
(trace-name permutation of the registered names), in ascending
lexicographic order of application name; `EndBlock` fires all timers
before the `EndBlock` hooks; and for transaction execution it first
invokes `ExecuteTx` on the unique application owning the transaction's
method, then `ForeignExecuteTx` on every other registered application in
ascending lexicographic name order. -/
theorem mux_lex_dispatch (reg : Mux.AppRegistry)
    (hnd : (reg.apps.map Mux.App.name).Nodup)
    (method : String) (app : Mux.App)
    (happ : Mux.appsByMethod reg method = some app) :
    (∀ hk : Mux.Hook,
      ((Mux.lifecycleTrace reg hk).map Prod.fst).Perm
          (reg.apps.map Mux.App.name) ∧
        ((Mux.lifecycleTrace reg hk).map Prod.fst).Pairwise (· < ·) ∧
        ∀ p ∈ Mux.lifecycleTrace reg hk, p.2 = hk) ∧
    Mux.initChainTrace reg = Mux.lifecycleTrace reg .initChain ∧
    Mux.beginBlockTrace reg = Mux.lifecycleTrace reg .beginBlock ∧
    Mux.endBlockTrace reg =
      Mux.lifecycleTrace reg .fireTimer ++ Mux.lifecycleTrace reg .endBlock ∧
    ∃ rest,
      Mux.processTxTrace reg method = some ((app.name, .executeTx) :: rest) ∧
      app.methods.contains method = true ∧ app ∈ reg.apps ∧
      ((rest.map Prod.fst).Pairwise (· < ·) ∧
        (∀ p ∈ rest, p.2 = .foreignExecuteTx) ∧
        (rest.map Prod.fst).Perm
          ((reg.apps.filter (fun b => b ≠ app)).map Mux.App.name)) := by
  have hfst : ∀ hk : Mux.Hook, (Mux.lifecycleTrace reg hk).map Prod.fst =
      (Mux.rebuildAppLexOrdering reg).map Mux.App.name := by
    intro hk
    simp [Mux.lifecycleTrace, List.map_map, Function.comp]
  refine ⟨?_, rfl, rfl, rfl, ?_⟩
  · intro hk
    refine ⟨?_, ?_, ?_⟩
    · rw [hfst]
      exact (lexOrder_perm reg).map Mux.App.name
    · rw [hfst]
      exact lexOrder_sorted reg hnd
    · intro p hp
      simp only [Mux.lifecycleTrace, List.mem_map] at hp
      obtain ⟨a, _, rfl⟩ := hp
      rfl
  · have happ' : reg.apps.find? (fun a => a.methods.contains method) = some app :=
      happ
    refine ⟨((Mux.rebuildAppLexOrdering reg).filter (fun a => a ≠ app)).map
        (fun a => (a.name, Mux.Hook.foreignExecuteTx)),
      ?_, by simpa using List.find?_some happ',
      List.mem_of_find?_eq_some happ', ?_, ?_, ?_⟩
    · simp [Mux.processTxTrace, happ]
    · have hsub : ((Mux.rebuildAppLexOrdering reg).filter (fun a => a ≠ app)).Sublist
          (Mux.rebuildAppLexOrdering reg) := List.filter_sublist _
      have hle := lexOrder_sorted reg hnd
      have : (((Mux.rebuildAppLexOrdering reg).filter
          (fun a => a ≠ app)).map Mux.App.name).Pairwise (· < ·) := by
        rw [List.pairwise_map]
        rw [List.pairwise_map] at hle
        exact hle.sublist hsub
      simpa [List.map_map, Function.comp] using this
  -- every entry is a ForeignExecuteTx
    · intro p hp
      simp only [List.mem_map] at hp
      obtain ⟨a, _, rfl⟩ := hp
      rfl
    · have h1 : (((Mux.rebuildAppLexOrdering reg).filter
          (fun a => a ≠ app)).map Mux.App.name).Perm
          ((reg.apps.filter (fun a => a ≠ app)).map Mux.App.name) :=
        ((lexOrder_perm reg).filter _).map _
      simpa [List.map_map, Function.comp] using h1

theorem mux_lex_dispatch_witness :
    ((([⟨"staking", ["staking.Transfer"]⟩, ⟨"beacon", []⟩,
        ⟨"registry", ["registry.RegisterNode"]⟩] : List Mux.App).map
          Mux.App.name).Nodup ∧
      Mux.appsByMethod
          ⟨[⟨"staking", ["staking.Transfer"]⟩, ⟨"beacon", []⟩,
            ⟨"registry", ["registry.RegisterNode"]⟩]⟩ "staking.Transfer" =
        some ⟨"staking", ["staking.Transfer"]⟩) ∧
    ((Mux.initChainTrace
        ⟨[⟨"staking", ["staking.Transfer"]⟩, ⟨"beacon", []⟩,
          ⟨"registry", ["registry.RegisterNode"]⟩]⟩).map Prod.fst).Perm
      (([⟨"staking", ["staking.Transfer"]⟩, ⟨"beacon", []⟩,
        ⟨"registry", ["registry.RegisterNode"]⟩] : List Mux.App).map
          Mux.App.name) := by
  have h := mux_lex_dispatch
    ⟨[⟨"staking", ["staking.Transfer"]⟩, ⟨"beacon", []⟩,
      ⟨"registry", ["registry.RegisterNode"]⟩]⟩
    (by decide) "staking.Transfer" ⟨"staking", ["staking.Transfer"]⟩ (by decide)
  refine ⟨⟨by decide, by decide⟩, ?_⟩
  have h2 := (h.1 Mux.Hook.initChain).1
  rw [h.2.1]
  exact h2

/-! ### C1 — supply conservation in `checkStaking` -/

theorem sumAccounts_error (st : Staking.StakingState)
    (l : List (Nat × Staking.Account)) (e : String) :
    Staking.sumAccounts st l (.error e) = .error e := by
  induction l with
  | nil => rfl
  | cons hd t ih => simp [Staking.sumAccounts, ih]

theorem sumAccounts_ok_eq (st : Staking.StakingState)
    (l : List (Nat × Staking.Account)) (t0 t : Staking.Quantity)
    (h : Staking.sumAccounts st l (.ok t0) = .ok t) :
    t = l.foldl
      (fun acc p =>
        acc + p.2.general + p.2.escrowActive.balance
          + p.2.escrowDebonding.balance) t0 := by
  induction l generalizing t0 with
  | nil => simpa [Staking.sumAccounts] using h.symm
  | cons hd t' ih =>
    simp only [Staking.sumAccounts, Staking.sanityCheckAccount] at h
    by_cases hv : (!hd.2.general.IsValid || !hd.2.escrowActive.balance.IsValid
        || !hd.2.escrowDebonding.balance.IsValid) = true
    · rw [if_pos hv, sumAccounts_error] at h
      exact absurd h (by simp)
    · rw [if_neg hv] at h
      simpa [List.foldl] using ih _ h

theorem sumAccounts_ok (st : Staking.StakingState)
    (l : List (Nat × Staking.Account)) (t0 : Staking.Quantity)
    (hval : ∀ p ∈ l, p.2.general.IsValid = true ∧
      p.2.escrowActive.balance.IsValid = true ∧
      p.2.escrowDebonding.balance.IsValid = true) :
    Staking.sumAccounts st l (.ok t0) =
      .ok (l.foldl
        (fun acc p =>
          acc + p.2.general + p.2.escrowActive.balance
            + p.2.escrowDebonding.balance) t0) := by
  induction l generalizing t0 with
  | nil => rfl
  | cons hd t' ih =>
    have hv := hval hd (by simp)
    simp only [Staking.sumAccounts, Staking.sanityCheckAccount,
      hv.1, hv.2.1, hv.2.2, Bool.not_true, Bool.or_self, Bool.or_false,
      if_neg Bool.false_ne_true]
    exact ih _ (fun p hp => hval p (by simp [hp]))

theorem foldCheck_error {β : Type} (check : β → Except String Unit)
    (l : List β) (e : String) :
    l.foldl
        (fun acc p =>
          match acc with
          | .error e => Except.error e
          | .ok _ => check p) (Except.error e) = .error e := by
  induction l with
  | nil => rfl
  | cons hd t ih => simpa using ih

theorem foldCheck_ok {β : Type} (check : β → Except String Unit)
    (l : List β) :
    l.foldl
        (fun acc p =>
          match acc with
          | .error e => Except.error e
          | .ok _ => check p) (Except.ok ()) = .ok () ↔
      ∀ p ∈ l, check p = .ok () := by
  induction l with
  | nil => simp
  | cons hd t ih =>
    simp only [List.foldl, List.mem_cons]
    cases hc : check hd with
    | error e =>
      rw [foldCheck_error]
      constructor
      · intro h; exact absurd h (by simp)
      · intro h
        exact absurd (h hd (Or.inl rfl)) (by simp [hc])
    | ok u =>
      obtain ⟨⟩ := u
      rw [ih]
      constructor
      · intro h p hp
        rcases hp with rfl | hp
        · exact hc
        · exact h p hp
      · intro h p hp
        exact h p (Or.inr hp)

/-- **C1 (counterexample).** A state in which the balance sum equals the
total supply but `checkStaking` still fails (a delegation's shares do not
add up to the target account's active total shares), refuting the
claimed "fails exactly when" equivalence. -/
theorem checkStaking_not_iff_counterexample :
    Staking.totalBalances
        ⟨10, 0, 0, [(1, ⟨10, ⟨0, 0⟩, ⟨0, 0⟩⟩)], [(1, [⟨5⟩])], []⟩ =
      (⟨10, 0, 0, [(1, ⟨10, ⟨0, 0⟩, ⟨0, 0⟩⟩)], [(1, [⟨5⟩])],
        []⟩ : Staking.StakingState).totalSupply ∧
    Staking.checkStaking
        ⟨10, 0, 0, [(1, ⟨10, ⟨0, 0⟩, ⟨0, 0⟩⟩)], [(1, [⟨5⟩])], []⟩ =
      .error "delegation shares do not add up" := by
  exact ⟨by decide, by rfl⟩

/-- **C1 (amended).** `checkStaking` succeeds only if the sum of all
account balances (general + active escrow + debonding escrow) plus the
common pool and the last-block fees equals the recorded total supply;
and provided the subsidiary checks pass (quantities valid and share
accounting consistent), `checkStaking` fails exactly when this sum does
not equal the total supply. -/
theorem checkStaking_supply_conservation (st : Staking.StakingState)
    (hsupply : st.totalSupply.IsValid = true)
    (hpool : st.commonPool.IsValid = true)
    (hfees : st.lastBlockFees.IsValid = true)
    (hacc : ∀ p ∈ st.accounts, p.2.general.IsValid = true ∧
      p.2.escrowActive.balance.IsValid = true ∧
      p.2.escrowDebonding.balance.IsValid = true)
    (hdel : ∀ p ∈ st.delegations,
      Staking.sumShares p.2 =
        (Staking.lookupAccount st p.1).escrowActive.totalShares)
    (hdeb : ∀ p ∈ st.debondingDelegations,
      Staking.sumShares p.2 =
        (Staking.lookupAccount st p.1).escrowDebonding.totalShares)
    (haccsh : ∀ p ∈ st.accounts,
      Staking.sumShares ((lookupA st.delegations p.1).getD []) =
          p.2.escrowActive.totalShares ∧
        Staking.sumShares ((lookupA st.debondingDelegations p.1).getD []) =
          p.2.escrowDebonding.totalShares) :
    Staking.checkStaking st = .ok () ↔
      Staking.totalBalances st = st.totalSupply := by
  have hfold := sumAccounts_ok st st.accounts 0 hacc
  have hTB : Staking.totalBalances st =
      st.accounts.foldl
        (fun acc p =>
          acc + p.2.general + p.2.escrowActive.balance
            + p.2.escrowDebonding.balance) 0
        + st.commonPool + st.lastBlockFees := rfl
  unfold Staking.checkStaking
  rw [hsupply, hpool, hfees, hfold]
  simp only [Bool.not_true, Bool.false_eq_true, if_false, ne_eq, ite_not]
  by_cases hsum : st.accounts.foldl
      (fun acc p =>
        acc + p.2.general + p.2.escrowActive.balance
          + p.2.escrowDebonding.balance) 0
      + st.commonPool + st.lastBlockFees = st.totalSupply
  · rw [if_pos hsum]
    have h1 : st.delegations.foldl
        (fun acc p =>
          match acc with
          | .error e => Except.error e
          | .ok _ =>
            Staking.sanityCheckDelegations (Staking.lookupAccount st p.1) p.2)
        (Except.ok ()) = .ok () := by
      rw [foldCheck_ok]
      intro p hp
      simp [Staking.sanityCheckDelegations, hdel p hp]
    have h2 : st.debondingDelegations.foldl
        (fun acc p =>
          match acc with
          | .error e => Except.error e
          | .ok _ =>
            Staking.sanityCheckDebondingDelegations
              (Staking.lookupAccount st p.1) p.2)
        (Except.ok ()) = .ok () := by
      rw [foldCheck_ok]
      intro p hp
      simp [Staking.sanityCheckDebondingDelegations, hdeb p hp]
    have h3 : st.accounts.foldl
        (fun acc p =>
          match acc with
          | .error e => Except.error e
          | .ok _ =>
            Staking.sanityCheckAccountShares p.2
              ((lookupA st.delegations p.1).getD [])
              ((lookupA st.debondingDelegations p.1).getD []))
        (Except.ok ()) = .ok () := by
      rw [foldCheck_ok]
      intro p hp
      have h := haccsh p hp
      simp [Staking.sanityCheckAccountShares, Staking.sanityCheckDelegations,
        Staking.sanityCheckDebondingDelegations, h.1, h.2]
    rw [h1, h2, h3]
    simp [hTB, hsum]
  · rw [if_neg hsum]
    rw [hTB]
    constructor
    · intro h; exact absurd h (by simp)
    · intro h; exact absurd h hsum

theorem checkStaking_supply_conservation_witness :
    ((∀ p ∈ (⟨15, 3, 2, [(1, ⟨4, ⟨6, 6⟩, ⟨0, 0⟩⟩)], [(1, [⟨6⟩])],
        []⟩ : Staking.StakingState).delegations,
      Staking.sumShares p.2 =
        (Staking.lookupAccount
          ⟨15, 3, 2, [(1, ⟨4, ⟨6, 6⟩, ⟨0, 0⟩⟩)], [(1, [⟨6⟩])], []⟩
          p.1).escrowActive.totalShares)) ∧
    (Staking.checkStaking
        ⟨15, 3, 2, [(1, ⟨4, ⟨6, 6⟩, ⟨0, 0⟩⟩)], [(1, [⟨6⟩])], []⟩ = .ok () ↔
      Staking.totalBalances
          ⟨15, 3, 2, [(1, ⟨4, ⟨6, 6⟩, ⟨0, 0⟩⟩)], [(1, [⟨6⟩])], []⟩ =
        (⟨15, 3, 2, [(1, ⟨4, ⟨6, 6⟩, ⟨0, 0⟩⟩)], [(1, [⟨6⟩])],
          []⟩ : Staking.StakingState).totalSupply) :=
  ⟨by decide,
   checkStaking_supply_conservation
     ⟨15, 3, 2, [(1, ⟨4, ⟨6, 6⟩, ⟨0, 0⟩⟩)], [(1, [⟨6⟩])], []⟩
     (by decide) (by decide) (by decide) (by decide) (by decide) (by decide)
     (by decide)⟩

/-! ### Registry `registerNode` lemmas (C2, C3, C7, C8) -/

theorem useGas_mono (g g' : Registry.GasAccountant) (m c : Nat)
    (h : g.UseGas m c = .ok g') : g.usedGas ≤ g'.usedGas := by
  unfold Registry.GasAccountant.UseGas at h
  dsimp only at h
  split at h
  · exact absurd h (by simp)
  · cases h
    simp

theorem useGas_ok_used (g g' : Registry.GasAccountant) (m c : Nat)
    (h : g.UseGas m c = .ok g') : g'.usedGas = g.usedGas + c * m := by
  unfold Registry.GasAccountant.UseGas at h
  dsimp only at h
  split at h
  · exact absurd h (by simp)
  · cases h
    rfl

theorem useGas_err (g : Registry.GasAccountant) (m c : Nat)
    (e : Registry.RegError) (h : g.UseGas m c = .error e) :
    e = .outOfGas := by
  unfold Registry.GasAccountant.UseGas at h
  dsimp only at h
  split at h
  · cases h; rfl
  · exact absurd h (by simp)

/-- The commit phase either succeeds without touching the gas accountant,
or fails with one of its three error kinds, returning the checkpoint
state unchanged, the gas accountant unchanged and no events. -/
theorem registerNodeCommit_spec (env : Registry.RegisterNodeEnv)
    (st : Registry.RegistryState) (gas : Registry.GasAccountant)
    (newNode : Registry.Node) (paid : List Registry.Runtime) (nn : Nat)
    (b1 b2 : Bool) (ex : Option Registry.Node) :
    (∃ st' evs, Registry.registerNodeCommit env st gas newNode paid nn b1 b2 ex =
        (.ok (), st', gas, evs)) ∨
    (∃ e, (e = Registry.RegError.insufficientStake ∨
        e = Registry.RegError.invalidArgument ∨
        e = Registry.RegError.nodeUpdateForbidden) ∧
      Registry.registerNodeCommit env st gas newNode paid nn b1 b2 ex =
        (.error e, st, gas, [])) := by
  unfold Registry.registerNodeCommit
  split
  · split
    · right; exact ⟨_, Or.inl rfl, rfl⟩
    · cases ex with
      | none =>
        dsimp only
        left; exact ⟨_, _, rfl⟩
      | some exn =>
        dsimp only
        cases hl : lookupA st.nodeStatuses newNode.id with
        | none =>
          simp only [hl]
          right; exact ⟨_, Or.inr (Or.inl rfl), rfl⟩
        | some status =>
          simp only [hl]
          left; exact ⟨_, _, rfl⟩
  · split
    · right; exact ⟨_, Or.inl rfl, rfl⟩
    · split
      · right; exact ⟨_, Or.inr (Or.inr rfl), rfl⟩
      · dsimp only
        left; exact ⟨_, _, rfl⟩

/-- Outcome characterization of the post-policy phase: on success the gas
accountant only grows; on failure the checkpoint state is returned
unchanged with no events, the gas accountant only grows, and the error is
one of the five kinds this phase can produce (never `forbidden`). -/
theorem registerNodePostPolicy_spec (env : Registry.RegisterNodeEnv)
    (st : Registry.RegistryState) (gas1 : Registry.GasAccountant)
    (newNode : Registry.Node) (paid : List Registry.Runtime) :
    (∃ st' gas2 evs,
        Registry.registerNodePostPolicy env st gas1 newNode paid =
          (.ok (), st', gas2, evs) ∧ gas1.usedGas ≤ gas2.usedGas) ∨
    (∃ e gas2,
        (e = Registry.RegError.insufficientStake ∨
          e = Registry.RegError.nodeExpired ∨
          e = Registry.RegError.outOfGas ∨
          e = Registry.RegError.invalidArgument ∨
          e = Registry.RegError.nodeUpdateForbidden) ∧
        Registry.registerNodePostPolicy env st gas1 newNode paid =
          (.error e, st, gas2, []) ∧ gas1.usedGas ≤ gas2.usedGas) := by
  unfold Registry.registerNodePostPolicy
  split
  · right; exact ⟨_, gas1, Or.inl rfl, rfl, le_refl _⟩
  · dsimp only
    split
    · right; exact ⟨_, gas1, Or.inr (Or.inl rfl), rfl, le_refl _⟩
    · split
      case h_1 e' heq =>
        have := useGas_err _ _ _ _ heq
        subst this
        right; exact ⟨_, gas1, Or.inr (Or.inr (Or.inl rfl)), rfl, le_refl _⟩
      case h_2 gas2 heq =>
        have hmono := useGas_mono _ _ _ _ heq
        cases registerNodeCommit_spec env st gas2 newNode paid
            (Registry.numEntityNodes st newNode.entityID)
            (lookupA st.nodes newNode.id).isNone
            (match lookupA st.nodes newNode.id with
              | some ex => ex.IsExpired env.epochAtNextHeight
              | none => false)
            (lookupA st.nodes newNode.id) with
        | inl hok =>
          obtain ⟨st', evs, hok⟩ := hok
          rw [hok]
          left; exact ⟨st', gas2, evs, rfl, hmono⟩
        | inr herr =>
          obtain ⟨e2, he2, herr⟩ := herr
          rw [herr]
          right
          refine ⟨e2, gas2, ?_, rfl, hmono⟩
          rcases he2 with rfl | rfl | rfl
          · exact Or.inl rfl
          · exact Or.inr (Or.inr (Or.inr (Or.inl rfl)))
          · exact Or.inr (Or.inr (Or.inr (Or.inr rfl)))

theorem registerNodePostPolicy_expired (env : Registry.RegisterNodeEnv)
    (st : Registry.RegistryState) (gas1 : Registry.GasAccountant)
    (newNode : Registry.Node) (paid : List Registry.Runtime)
    (hstake : (!st.params.debugBypassStake && !env.entityHasSufficientStake) = false)
    (hexp : newNode.expiration ≤ env.epochAtNextHeight) :
    Registry.registerNodePostPolicy env st gas1 newNode paid =
      (.error .nodeExpired, st, gas1, []) := by
  unfold Registry.registerNodePostPolicy
  rw [if_neg (by simp [hstake])]
  dsimp only
  rw [if_pos hexp]

theorem registerNodePostPolicy_ne_expired (env : Registry.RegisterNodeEnv)
    (st : Registry.RegistryState) (gas1 : Registry.GasAccountant)
    (newNode : Registry.Node) (paid : List Registry.Runtime)
    (hexp : env.epochAtNextHeight < newNode.expiration) :
    (Registry.registerNodePostPolicy env st gas1 newNode paid).1 ≠
      .error .nodeExpired := by
  unfold Registry.registerNodePostPolicy
  split
  · simp
  · dsimp only
    rw [if_neg (by omega)]
    split
    case h_1 e' heq =>
      have := useGas_err _ _ _ _ heq
      simp [this]
    case h_2 gas2 heq =>
      cases registerNodeCommit_spec env st gas2 newNode paid
          (Registry.numEntityNodes st newNode.entityID)
          (lookupA st.nodes newNode.id).isNone
          (match lookupA st.nodes newNode.id with
            | some ex => ex.IsExpired env.epochAtNextHeight
            | none => false)
          (lookupA st.nodes newNode.id) with
      | inl hok =>
        obtain ⟨st', evs, hok⟩ := hok
        rw [hok]
        simp
      | inr herr =>
        obtain ⟨e2, he2, herr⟩ := herr
        rw [herr]
        rcases he2 with rfl | rfl | rfl <;> simp

/-- Outcome characterization of the whole `registerNode`: on failure the
registry state is returned unchanged (the checkpoint covers every state
write) while the gas accountant only grows. -/
theorem registerNode_spec (env : Registry.RegisterNodeEnv)
    (st : Registry.RegistryState) (gas : Registry.GasAccountant) :
    (∃ st' gas' evs, Registry.registerNode env st gas =
        (.ok (), st', gas', evs) ∧ gas.usedGas ≤ gas'.usedGas) ∨
    (∃ e gas', Registry.registerNode env st gas =
        (.error e, st, gas', []) ∧ gas.usedGas ≤ gas'.usedGas) := by
  unfold Registry.registerNode
  split
  · left; exact ⟨st, gas, [], rfl, le_refl _⟩
  · split
    · right; exact ⟨_, gas, rfl, le_refl _⟩
    · split
      · right; exact ⟨_, gas, rfl, le_refl _⟩
      · split
        · right; exact ⟨_, gas, rfl, le_refl _⟩
        case h_2 newNode paid heqv =>
          dsimp only
          split
          case h_1 eg heq =>
            right; exact ⟨_, gas, rfl, le_refl _⟩
          case h_2 gas1 heq =>
            have hmono1 : gas.usedGas ≤ gas1.usedGas := by
              split at heq
              · exact useGas_mono _ _ _ _ heq
              · cases heq; exact le_refl _
            split
            · right; exact ⟨_, gas1, rfl, hmono1⟩
            · split
              case h_1 e heq2 =>
                right; exact ⟨_, gas1, rfl, hmono1⟩
              case h_2 u heq2 =>
                cases registerNodePostPolicy_spec env st gas1 newNode paid with
                | inl hok =>
                  obtain ⟨st', gas2, evs, hok, hm⟩ := hok
                  rw [hok]
                  left; exact ⟨st', gas2, evs, rfl, le_trans hmono1 hm⟩
                | inr herr =>
                  obtain ⟨e, gas2, _, herr, hm⟩ := herr
                  rw [herr]
                  right; exact ⟨e, gas2, rfl, le_trans hmono1 hm⟩

/-! ### C2 — checkpoint rollback on registration failure -/

/-- **C2.** Whenever `registerNode` returns an error, the registry state
after the invocation equals the registry state before it (every state
write happens after the checkpoint opened before any write, and the
deferred rollback reverts them), while gas already charged is kept (the
gas accountant never shrinks). -/
theorem registerNode_checkpoint_rollback (env : Registry.RegisterNodeEnv)
    (st : Registry.RegistryState) (gas : Registry.GasAccountant)
    (e : Registry.RegError)
    (h : (Registry.registerNode env st gas).1 = .error e) :
    (Registry.registerNode env st gas).2.1 = st ∧
    gas.usedGas ≤ (Registry.registerNode env st gas).2.2.1.usedGas := by
  cases registerNode_spec env st gas with
  | inl hok =>
    obtain ⟨st', g', evs, hok, _⟩ := hok
    rw [hok] at h
    exact absurd h (by simp)
  | inr herr =>
    obtain ⟨e', g', herr, hm⟩ := herr
    rw [herr]
    exact ⟨rfl, hm⟩

theorem registerNode_checkpoint_rollback_witness :
    (Registry.registerNode
        ⟨false, false, 0, 0, none, none, 0, true, fun _ => true, true⟩
        ⟨⟨false, ⟨1, 1⟩⟩, [], [], [], [], []⟩ ⟨100, 0⟩).1 =
      .error .decodeFailed ∧
    ((Registry.registerNode
        ⟨false, false, 0, 0, none, none, 0, true, fun _ => true, true⟩
        ⟨⟨false, ⟨1, 1⟩⟩, [], [], [], [], []⟩ ⟨100, 0⟩).2.1 =
      ⟨⟨false, ⟨1, 1⟩⟩, [], [], [], [], []⟩ ∧
    (⟨100, 0⟩ : Registry.GasAccountant).usedGas ≤
      (Registry.registerNode
        ⟨false, false, 0, 0, none, none, 0, true, fun _ => true, true⟩
        ⟨⟨false, ⟨1, 1⟩⟩, [], [], [], [], []⟩ ⟨100, 0⟩).2.2.1.usedGas) :=
  ⟨rfl,
   registerNode_checkpoint_rollback
     ⟨false, false, 0, 0, none, none, 0, true, fun _ => true, true⟩
     ⟨⟨false, ⟨1, 1⟩⟩, [], [], [], [], []⟩ ⟨100, 0⟩ .decodeFailed rfl⟩

/-! ### C3 — admission-policy enforcement -/

theorem checkRuntimeWhitelist_ok_iff (st : Registry.RegistryState)
    (ent : Registry.PublicKey) (l : List Registry.NodeRuntime) :
    Registry.checkRuntimeWhitelist st ent l = .ok () ↔
      ∀ nrt ∈ l, ∃ rt, lookupA st.runtimes nrt.id = some rt ∧
        ∀ wl, rt.admissionPolicy.entityWhitelist = some wl →
          (lookupA wl.entities ent).getD false = true := by
  induction l with
  | nil => simp [Registry.checkRuntimeWhitelist]
  | cons nrt rest ih =>
    simp only [Registry.checkRuntimeWhitelist]
    cases hrt : lookupA st.runtimes nrt.id with
    | none =>
      dsimp only
      simp only [List.mem_cons]
      constructor
      · intro h; exact absurd h (by simp)
      · intro h
        obtain ⟨rt, hrt', _⟩ := h nrt (Or.inl rfl)
        rw [hrt] at hrt'
        exact absurd hrt' (by simp)
    | some rt =>
      dsimp only
      cases hwl : rt.admissionPolicy.entityWhitelist with
      | none =>
        dsimp only
        rw [ih]
        constructor
        · intro h p hp
          rcases List.mem_cons.mp hp with rfl | hp'
          · exact ⟨rt, hrt, fun wl hwl' => absurd (hwl ▸ hwl') (by simp)⟩
          · exact h p hp'
        · intro h p hp
          exact h p (List.mem_cons_of_mem _ hp)
      | some wl =>
        dsimp only
        by_cases hg : (lookupA wl.entities ent).getD false = true
        · rw [if_pos hg, ih]
          constructor
          · intro h p hp
            rcases List.mem_cons.mp hp with rfl | hp'
            · refine ⟨rt, hrt, fun wl' hwl' => ?_⟩
              rw [hwl] at hwl'
              cases hwl'
              exact hg
            · exact h p hp'
          · intro h p hp
            exact h p (List.mem_cons_of_mem _ hp)
        · rw [if_neg hg]
          constructor
          · intro h; exact absurd h (by simp)
          · intro h
            obtain ⟨rt', hrt', hadm⟩ := h nrt (List.mem_cons_self _ _)
            rw [hrt] at hrt'
            cases hrt'
            exact absurd (hadm wl hwl) hg

theorem checkRuntimeWhitelist_err_forbidden (st : Registry.RegistryState)
    (ent : Registry.PublicKey) (l : List Registry.NodeRuntime)
    (hload : ∀ nrt ∈ l, (lookupA st.runtimes nrt.id).isSome = true)
    (e : Registry.RegError)
    (h : Registry.checkRuntimeWhitelist st ent l = .error e) :
    e = .forbidden := by
  induction l with
  | nil => exact absurd h (by simp [Registry.checkRuntimeWhitelist])
  | cons nrt rest ih =>
    simp only [Registry.checkRuntimeWhitelist] at h
    cases hrt : lookupA st.runtimes nrt.id with
    | none =>
      have := hload nrt (List.mem_cons_self _ _)
      rw [hrt] at this
      exact absurd this (by simp)
    | some rt =>
      rw [hrt] at h
      dsimp only at h
      cases hwl : rt.admissionPolicy.entityWhitelist with
      | none =>
        rw [hwl] at h
        dsimp only at h
        exact ih (fun p hp => hload p (List.mem_cons_of_mem _ hp)) h
      | some wl =>
        rw [hwl] at h
        dsimp only at h
        by_cases hg : (lookupA wl.entities ent).getD false = true
        · rw [if_pos hg] at h
          exact ih (fun p hp => hload p (List.mem_cons_of_mem _ hp)) h
        · rw [if_neg hg] at h
          cases h
          rfl

theorem checkRuntimeWhitelist_forbidden_iff (st : Registry.RegistryState)
    (ent : Registry.PublicKey) (l : List Registry.NodeRuntime)
    (hload : ∀ nrt ∈ l, (lookupA st.runtimes nrt.id).isSome = true) :
    Registry.checkRuntimeWhitelist st ent l = .error .forbidden ↔
      ∃ nrt ∈ l, ∃ rt wl, lookupA st.runtimes nrt.id = some rt ∧
        rt.admissionPolicy.entityWhitelist = some wl ∧
        (lookupA wl.entities ent).getD false = false := by
  constructor
  · intro h
    by_contra hno
    push_neg at hno
    have hok : Registry.checkRuntimeWhitelist st ent l = .ok () := by
      rw [checkRuntimeWhitelist_ok_iff]
      intro nrt hmem
      have hs := hload nrt hmem
      cases hrt : lookupA st.runtimes nrt.id with
      | none => rw [hrt] at hs; exact absurd hs (by simp)
      | some rt =>
        refine ⟨rt, rfl, fun wl hwl => ?_⟩
        have := hno nrt hmem rt wl hrt hwl
        cases hg : (lookupA wl.entities ent).getD false
        · exact absurd hg this
        · rfl
    rw [hok] at h
    exact absurd h (by simp)
  · intro h
    obtain ⟨nrt, hmem, rt, wl, hrt, hwl, hg⟩ := h
    cases he : Registry.checkRuntimeWhitelist st ent l with
    | error e => rw [checkRuntimeWhitelist_err_forbidden st ent l hload e he]
    | ok u =>
      obtain ⟨⟩ := u
      rw [checkRuntimeWhitelist_ok_iff] at he
      obtain ⟨rt', hrt', hadm⟩ := he nrt hmem
      rw [hrt] at hrt'
      cases hrt'
      rw [hadm wl hwl] at hg
      exact absurd hg (by simp)

/-- When decoding, entity lookup, argument verification, the
registration-gas charge and the signer check all pass, `registerNode`
reduces to the admission-policy loop followed by the post-policy
phase. -/
theorem registerNode_reduces (env : Registry.RegisterNodeEnv)
    (st : Registry.RegistryState) (gas : Registry.GasAccountant)
    (un newNode : Registry.Node) (paid : List Registry.Runtime)
    (gas1 : Registry.GasAccountant)
    (h0 : env.isCheckOnly = false)
    (h1 : env.untrustedNode = some un)
    (h2 : st.entities.contains un.entityID = true)
    (h3 : env.verifyRegisterNodeArgs = some (newNode, paid))
    (hgas : (if env.sigNodePublicKey == newNode.entityID then
        gas.UseGas 1 st.params.gasCosts.opRegisterNode
      else .ok gas) = .ok gas1)
    (hsig : env.sigNodePublicKey = env.txSigner) :
    Registry.registerNode env st gas =
      match Registry.checkRuntimeWhitelist st newNode.entityID
          newNode.runtimes with
      | .error e => (.error e, st, gas1, [])
      | .ok _ => Registry.registerNodePostPolicy env st gas1 newNode paid := by
  unfold Registry.registerNode
  rw [h0, h1]
  simp only [Bool.false_eq_true, if_false]
  try dsimp only
  rw [h2]
  simp only [Bool.not_true, Bool.false_eq_true, if_false]
  rw [h3]
  try dsimp only
  rw [hgas]
  try dsimp only
  rw [hsig]
  simp only [beq_self_eq_true, Bool.not_true, Bool.and_false,
    Bool.false_eq_true, if_false]

/-- **C3.** Given the preceding steps succeed (decode, entity lookup,
argument verification, registration gas, signer check) and every claimed
runtime exists in state, `registerNode` returns the `ForbiddenByPolicy`
error exactly when some runtime in the node's descriptor has an
`EntityWhitelist` admission policy that does not admit the node's owning
entity; on that failure nothing is registered (the state is unchanged);
and on success every claimed runtime's admission policy admits the
entity (a missing whitelist, e.g. `AnyNode`, admits every entity). -/
theorem registerNode_admission_policy (env : Registry.RegisterNodeEnv)
    (st : Registry.RegistryState) (gas : Registry.GasAccountant)
    (un newNode : Registry.Node) (paid : List Registry.Runtime)
    (gas1 : Registry.GasAccountant)
    (h0 : env.isCheckOnly = false)
    (h1 : env.untrustedNode = some un)
    (h2 : st.entities.contains un.entityID = true)
    (h3 : env.verifyRegisterNodeArgs = some (newNode, paid))
    (hgas : (if env.sigNodePublicKey == newNode.entityID then
        gas.UseGas 1 st.params.gasCosts.opRegisterNode
      else .ok gas) = .ok gas1)
    (hsig : env.sigNodePublicKey = env.txSigner)
    (hload : ∀ nrt ∈ newNode.runtimes,
      (lookupA st.runtimes nrt.id).isSome = true) :
    ((Registry.registerNode env st gas).1 = .error .forbidden ↔
      ∃ nrt ∈ newNode.runtimes, ∃ rt wl,
        lookupA st.runtimes nrt.id = some rt ∧
        rt.admissionPolicy.entityWhitelist = some wl ∧
        (lookupA wl.entities newNode.entityID).getD false = false) ∧
    ((Registry.registerNode env st gas).1 = .error .forbidden →
      (Registry.registerNode env st gas).2.1 = st) ∧
    ((Registry.registerNode env st gas).1 = .ok () →
      ∀ nrt ∈ newNode.runtimes, ∃ rt,
        lookupA st.runtimes nrt.id = some rt ∧
        ∀ wl, rt.admissionPolicy.entityWhitelist = some wl →
          (lookupA wl.entities newNode.entityID).getD false = true) := by
  have hred := registerNode_reduces env st gas un newNode paid gas1
    h0 h1 h2 h3 hgas hsig
  refine ⟨?_, ?_, ?_⟩
  · rw [hred]
    cases hW : Registry.checkRuntimeWhitelist st newNode.entityID
        newNode.runtimes with
    | error e =>
      have hef := checkRuntimeWhitelist_err_forbidden st _ _ hload e hW
      subst hef
      dsimp only
      constructor
      · intro _
        exact (checkRuntimeWhitelist_forbidden_iff st _ _ hload).mp hW
      · intro _; rfl
    | ok u =>
      obtain ⟨⟩ := u
      dsimp only
      constructor
      · intro hpp
        cases registerNodePostPolicy_spec env st gas1 newNode paid with
        | inl hok =>
          obtain ⟨st', g2, evs, hok, _⟩ := hok
          rw [hok] at hpp
          exact absurd hpp (by simp)
        | inr herr =>
          obtain ⟨e, g2, hkind, herr, _⟩ := herr
          rw [herr] at hpp
          simp only [Except.error.injEq] at hpp
          rcases hkind with rfl | rfl | rfl | rfl | rfl <;> exact absurd hpp (by simp)
      · intro hex
        exfalso
        rw [checkRuntimeWhitelist_ok_iff] at hW
        obtain ⟨nrt, hmem, rt, wl, hrt, hwl, hg⟩ := hex
        obtain ⟨rt', hrt', hadm⟩ := hW nrt hmem
        rw [hrt] at hrt'
        cases hrt'
        rw [hadm wl hwl] at hg
        exact absurd hg (by simp)
  · intro hf
    cases registerNode_spec env st gas with
    | inl hok =>
      obtain ⟨st', g', evs, hok, _⟩ := hok
      rw [hok] at hf
      exact absurd hf (by simp)
    | inr herr =>
      obtain ⟨e', g', herr, _⟩ := herr
      rw [herr]
  · intro hok nrt hmem
    rw [hred] at hok
    cases hW : Registry.checkRuntimeWhitelist st newNode.entityID
        newNode.runtimes with
    | error e =>
      rw [hW] at hok
      exact absurd hok (by simp)
    | ok u =>
      obtain ⟨⟩ := u
      rw [checkRuntimeWhitelist_ok_iff] at hW
      exact hW nrt hmem

theorem registerNode_admission_policy_witness :
    ((⟨⟨true, ⟨1, 1⟩⟩, [7], [(5, ⟨5, ⟨some ⟨[(9, true)]⟩⟩⟩)], [], [],
        []⟩ : Registry.RegistryState).entities.contains
      (⟨1, 7, 10, [⟨5⟩]⟩ : Registry.Node).entityID = true ∧
      (lookupA (⟨⟨true, ⟨1, 1⟩⟩, [7], [(5, ⟨5, ⟨some ⟨[(9, true)]⟩⟩⟩)], [],
          [], []⟩ : Registry.RegistryState).runtimes 5).isSome = true) ∧
    (Registry.registerNode
        ⟨false, false, 3, 3, some ⟨1, 7, 10, [⟨5⟩]⟩,
          some (⟨1, 7, 10, [⟨5⟩]⟩, []), 0, true, fun _ => true, true⟩
        ⟨⟨true, ⟨1, 1⟩⟩, [7], [(5, ⟨5, ⟨some ⟨[(9, true)]⟩⟩⟩)], [], [], []⟩
        ⟨100, 0⟩).1 = .error .forbidden ∧
    (Registry.registerNode
        ⟨false, false, 3, 3, some ⟨1, 7, 10, [⟨5⟩]⟩,
          some (⟨1, 7, 10, [⟨5⟩]⟩, []), 0, true, fun _ => true, true⟩
        ⟨⟨true, ⟨1, 1⟩⟩, [7], [(5, ⟨5, ⟨some ⟨[(9, true)]⟩⟩⟩)], [], [], []⟩
        ⟨100, 0⟩).2.1 =
      ⟨⟨true, ⟨1, 1⟩⟩, [7], [(5, ⟨5, ⟨some ⟨[(9, true)]⟩⟩⟩)], [], [], []⟩ := by
  have h := registerNode_admission_policy
    ⟨false, false, 3, 3, some ⟨1, 7, 10, [⟨5⟩]⟩,
      some (⟨1, 7, 10, [⟨5⟩]⟩, []), 0, true, fun _ => true, true⟩
    ⟨⟨true, ⟨1, 1⟩⟩, [7], [(5, ⟨5, ⟨some ⟨[(9, true)]⟩⟩⟩)], [], [], []⟩
    ⟨100, 0⟩ ⟨1, 7, 10, [⟨5⟩]⟩ ⟨1, 7, 10, [⟨5⟩]⟩ [] ⟨100, 0⟩
    rfl rfl (by decide) rfl rfl rfl
    (by
      intro nrt hmem
      simp only [List.mem_singleton] at hmem
      subst hmem
      decide)
  have hforb : (Registry.registerNode
      ⟨false, false, 3, 3, some ⟨1, 7, 10, [⟨5⟩]⟩,
        some (⟨1, 7, 10, [⟨5⟩]⟩, []), 0, true, fun _ => true, true⟩
      ⟨⟨true, ⟨1, 1⟩⟩, [7], [(5, ⟨5, ⟨some ⟨[(9, true)]⟩⟩⟩)], [], [], []⟩
      ⟨100, 0⟩).1 = .error .forbidden :=
    h.1.mpr ⟨⟨5⟩, by decide, ⟨5, ⟨some ⟨[(9, true)]⟩⟩⟩, ⟨[(9, true)]⟩,
      rfl, rfl, by decide⟩
  exact ⟨⟨by decide, by decide⟩, hforb, h.2.1 hforb⟩

/-! ### C7 — next-epoch expiration check -/

/-- **C7.** `registerNode` queries the epoch at `blockHeight + 1` and,
given the preceding verification steps succeed, returns the `NodeExpired`
error if and only if the node's declared expiration epoch is less than or
equal to that epoch (so a node whose expiration equals the next block's
epoch is rejected). -/
theorem registerNode_expiration (env : Registry.RegisterNodeEnv)
    (st : Registry.RegistryState) (gas : Registry.GasAccountant)
    (un newNode : Registry.Node) (paid : List Registry.Runtime)
    (gas1 : Registry.GasAccountant)
    (h0 : env.isCheckOnly = false)
    (h1 : env.untrustedNode = some un)
    (h2 : st.entities.contains un.entityID = true)
    (h3 : env.verifyRegisterNodeArgs = some (newNode, paid))
    (hgas : (if env.sigNodePublicKey == newNode.entityID then
        gas.UseGas 1 st.params.gasCosts.opRegisterNode
      else .ok gas) = .ok gas1)
    (hsig : env.sigNodePublicKey = env.txSigner)
    (hwl : Registry.checkRuntimeWhitelist st newNode.entityID
        newNode.runtimes = .ok ())
    (hstake : (!st.params.debugBypassStake
        && !env.entityHasSufficientStake) = false) :
    (Registry.registerNode env st gas).1 = .error .nodeExpired ↔
      newNode.expiration ≤ env.epochAtNextHeight := by
  have hred := registerNode_reduces env st gas un newNode paid gas1
    h0 h1 h2 h3 hgas hsig
  rw [hred, hwl]
  dsimp only
  constructor
  · intro h
    by_contra hgt
    push_neg at hgt
    exact registerNodePostPolicy_ne_expired env st gas1 newNode paid hgt h
  · intro hle
    rw [registerNodePostPolicy_expired env st gas1 newNode paid hstake hle]

theorem registerNode_expiration_witness :
    ((⟨1, 7, 10, []⟩ : Registry.Node).expiration ≤ 10) ∧
    (Registry.registerNode
        ⟨false, false, 3, 3, some ⟨1, 7, 10, []⟩, some (⟨1, 7, 10, []⟩, []),
          10, true, fun _ => true, true⟩
        ⟨⟨false, ⟨1, 1⟩⟩, [7], [], [], [], []⟩ ⟨100, 0⟩).1 =
      .error .nodeExpired :=
  ⟨by decide,
   (registerNode_expiration
      ⟨false, false, 3, 3, some ⟨1, 7, 10, []⟩, some (⟨1, 7, 10, []⟩, []),
        10, true, fun _ => true, true⟩
      ⟨⟨false, ⟨1, 1⟩⟩, [7], [], [], [], []⟩ ⟨100, 0⟩
      ⟨1, 7, 10, []⟩ ⟨1, 7, 10, []⟩ [] ⟨100, 0⟩
      rfl rfl (by decide) rfl rfl rfl rfl (by decide)).mpr (by decide)⟩

/-! ### C8 — runtime-maintenance gas -/

/-- **C8.** Given the preceding steps succeed and the node is not
expired, the runtime-maintenance gas charged by `registerNode` on success
equals the number of paid runtimes multiplied by `additional_epochs`
(times the per-op cost from the gas cost table), where
`additional_epochs` is `expiration − epoch(height+1)` for a new or
expired node, and for an existing live node is the excess of the new
registration's epochs beyond the epochs remaining on the existing
registration (zero when the new expiration does not extend past the
existing one). -/
theorem registerNode_maintenance_fee (env : Registry.RegisterNodeEnv)
    (st : Registry.RegistryState) (gas : Registry.GasAccountant)
    (un newNode : Registry.Node) (paid : List Registry.Runtime)
    (gas1 : Registry.GasAccountant)
    (h0 : env.isCheckOnly = false)
    (h1 : env.untrustedNode = some un)
    (h2 : st.entities.contains un.entityID = true)
    (h3 : env.verifyRegisterNodeArgs = some (newNode, paid))
    (hgas : (if env.sigNodePublicKey == newNode.entityID then
        gas.UseGas 1 st.params.gasCosts.opRegisterNode
      else .ok gas) = .ok gas1)
    (hsig : env.sigNodePublicKey = env.txSigner)
    (hwl : Registry.checkRuntimeWhitelist st newNode.entityID
        newNode.runtimes = .ok ())
    (hstake : (!st.params.debugBypassStake
        && !env.entityHasSufficientStake) = false)
    (hexp : env.epochAtNextHeight < newNode.expiration) :
    ((Registry.registerNode env st gas).1 = .ok () →
      (Registry.registerNode env st gas).2.2.1.usedGas =
        gas1.usedGas + st.params.gasCosts.opRuntimeEpochMaintenance *
          (paid.length * Registry.maintenanceAdditionalEpochs
            env.epochAtNextHeight newNode.expiration
            (lookupA st.nodes newNode.id))) ∧
    (lookupA st.nodes newNode.id = none →
      Registry.maintenanceAdditionalEpochs env.epochAtNextHeight
          newNode.expiration (lookupA st.nodes newNode.id) =
        newNode.expiration - env.epochAtNextHeight) ∧
    (∀ ex, lookupA st.nodes newNode.id = some ex →
      ex.IsExpired env.epochAtNextHeight = true →
      Registry.maintenanceAdditionalEpochs env.epochAtNextHeight
          newNode.expiration (lookupA st.nodes newNode.id) =
        newNode.expiration - env.epochAtNextHeight) ∧
    (∀ ex, lookupA st.nodes newNode.id = some ex →
      ex.IsExpired env.epochAtNextHeight = false →
      Registry.maintenanceAdditionalEpochs env.epochAtNextHeight
          newNode.expiration (lookupA st.nodes newNode.id) =
        (newNode.expiration - env.epochAtNextHeight)
          - (ex.expiration - env.epochAtNextHeight)) := by
  have hred := registerNode_reduces env st gas un newNode paid gas1
    h0 h1 h2 h3 hgas hsig
  refine ⟨?_, ?_, ?_, ?_⟩
  · rw [hred, hwl]
    dsimp only
    unfold Registry.registerNodePostPolicy
    rw [if_neg (by simp [hstake])]
    dsimp only
    rw [if_neg (by omega)]
    cases heq : gas1.UseGas
        (paid.length * Registry.maintenanceAdditionalEpochs
          env.epochAtNextHeight newNode.expiration
          (lookupA st.nodes newNode.id))
        st.params.gasCosts.opRuntimeEpochMaintenance with
    | error e =>
      intro h
      simp at h
    | ok gas2 =>
      dsimp only
      cases registerNodeCommit_spec env st gas2 newNode paid
          (Registry.numEntityNodes st newNode.entityID)
          (lookupA st.nodes newNode.id).isNone
          (match lookupA st.nodes newNode.id with
            | some ex => ex.IsExpired env.epochAtNextHeight
            | none => false)
          (lookupA st.nodes newNode.id) with
      | inl hok =>
        obtain ⟨st', evs, hok⟩ := hok
        rw [hok]
        intro _
        exact useGas_ok_used _ _ _ _ heq
      | inr herr =>
        obtain ⟨e2, _, herr⟩ := herr
        rw [herr]
        intro h
        exact absurd h (by simp)
  · intro hnone
    rw [hnone]
    rfl
  · intro ex hex hisexp
    rw [hex]
    unfold Registry.maintenanceAdditionalEpochs
    dsimp only
    rw [if_pos hisexp]
  · intro ex hex hlive
    rw [hex]
    unfold Registry.maintenanceAdditionalEpochs
    dsimp only
    rw [if_neg (by simp [hlive])]
    split <;> omega

theorem registerNode_maintenance_fee_witness :
    (10 < (⟨1, 7, 15, []⟩ : Registry.Node).expiration) ∧
    (Registry.registerNode
        ⟨false, false, 3, 3, some ⟨1, 7, 15, []⟩,
          some (⟨1, 7, 15, []⟩, [⟨6, ⟨none⟩⟩]), 10, true, fun _ => true, true⟩
        ⟨⟨false, ⟨1, 2⟩⟩, [7], [], [], [(1, ⟨1, 7, 12, []⟩)], []⟩
        ⟨100, 0⟩).1 = .ok () ∧
    (Registry.registerNode
        ⟨false, false, 3, 3, some ⟨1, 7, 15, []⟩,
          some (⟨1, 7, 15, []⟩, [⟨6, ⟨none⟩⟩]), 10, true, fun _ => true, true⟩
        ⟨⟨false, ⟨1, 2⟩⟩, [7], [], [], [(1, ⟨1, 7, 12, []⟩)], []⟩
        ⟨100, 0⟩).2.2.1.usedGas = 6 ∧
    Registry.maintenanceAdditionalEpochs 10 15 (some ⟨1, 7, 12, []⟩) =
      (15 - 10) - (12 - 10) := by
  have h := registerNode_maintenance_fee
    ⟨false, false, 3, 3, some ⟨1, 7, 15, []⟩,
      some (⟨1, 7, 15, []⟩, [⟨6, ⟨none⟩⟩]), 10, true, fun _ => true, true⟩
    ⟨⟨false, ⟨1, 2⟩⟩, [7], [], [], [(1, ⟨1, 7, 12, []⟩)], []⟩
    ⟨100, 0⟩ ⟨1, 7, 15, []⟩ ⟨1, 7, 15, []⟩ [⟨6, ⟨none⟩⟩] ⟨100, 0⟩
    rfl rfl (by decide) rfl rfl rfl rfl (by decide) (by decide)
  refine ⟨by decide, rfl, ?_, ?_⟩
  · have h1 := h.1 rfl
    simpa using h1
  · have h4 := h.2.2.2 ⟨1, 7, 12, []⟩ rfl (by decide)
    simpa using h4

/-! ### C9 — key-manager status recomputation -/

theorem generateStatusStep_preserves (hp : Option KeyManager.PolicyDoc →
      KeyManager.Checksum) (kmrt : KeyManager.KmRuntime)
    (s : KeyManager.Status) (n : KeyManager.KmNode)
    (h : s.isInitialized = true) :
    (KeyManager.generateStatusStep hp kmrt s n).isInitialized = true ∧
    (KeyManager.generateStatusStep hp kmrt s n).isSecure = s.isSecure ∧
    (KeyManager.generateStatusStep hp kmrt s n).checksum = s.checksum ∧
    (KeyManager.generateStatusStep hp kmrt s n).policy = s.policy := by
  unfold KeyManager.generateStatusStep
  cases KeyManager.acceptedResponse hp kmrt s n with
  | none => exact ⟨h, rfl, rfl, rfl⟩
  | some r =>
    dsimp only
    rw [if_pos h]
    split
    · exact ⟨h, rfl, rfl, rfl⟩
    · split
      · exact ⟨h, rfl, rfl, rfl⟩
      · exact ⟨h, rfl, rfl, rfl⟩

theorem generateStatus_fold_preserves (hp : Option KeyManager.PolicyDoc →
      KeyManager.Checksum) (kmrt : KeyManager.KmRuntime)
    (ns : List KeyManager.KmNode) (s : KeyManager.Status)
    (h : s.isInitialized = true) :
    ((ns.foldl (KeyManager.generateStatusStep hp kmrt) s).isInitialized = true ∧
      (ns.foldl (KeyManager.generateStatusStep hp kmrt) s).isSecure = s.isSecure ∧
      (ns.foldl (KeyManager.generateStatusStep hp kmrt) s).checksum = s.checksum) := by
  induction ns generalizing s with
  | nil => exact ⟨h, rfl, rfl⟩
  | cons hd t ih =>
    obtain ⟨hi, hs, hc, _⟩ := generateStatusStep_preserves hp kmrt s hd h
    obtain ⟨ih1, ih2, ih3⟩ := ih (KeyManager.generateStatusStep hp kmrt s hd) hi
    exact ⟨ih1, by rw [List.foldl_cons, ih2, hs], by rw [List.foldl_cons, ih3, hc]⟩

theorem foldl_congr_id {α β : Type} (f : α → β → α) (l : List β) (s : α)
    (h : ∀ m ∈ l, f s m = s) : l.foldl f s = s := by
  induction l with
  | nil => rfl
  | cons hd t ih =>
    rw [List.foldl_cons, h hd (List.mem_cons_self _ _)]
    exact ih (fun m hm => h m (List.mem_cons_of_mem _ hm))

/-- **C9.** When recomputing a key-manager runtime's status: while the
status is uninitialized, a node that fails the acceptance checks (role,
runtime membership, TEE hardware, extra-info verification, policy
checksum) or would regress the secure flag leaves the status unchanged,
and the first acceptable node fixes `(is_secure, checksum)`; once the
status is initialized, those fields never change, and a node is added to
the node list exactly when it is acceptable and its init response agrees
on both values; and `onEpochChange` stores and enqueues a recomputed
status only when it differs from the previously stored one (or the
runtime had no stored status). -/
theorem keymanager_status_update (hp : Option KeyManager.PolicyDoc →
      KeyManager.Checksum) (kmrt : KeyManager.KmRuntime)
    (nodes : List KeyManager.KmNode) :
    (∀ (s : KeyManager.Status) (n : KeyManager.KmNode),
      s.isInitialized = true →
      KeyManager.generateStatusStep hp kmrt s n =
        (match KeyManager.acceptedResponse hp kmrt s n with
          | some r =>
            if r.isSecure = s.isSecure ∧ r.checksum = s.checksum
            then { s with nodes := s.nodes ++ [n.id] } else s
          | none => s)) ∧
    (∀ (s : KeyManager.Status) (n : KeyManager.KmNode),
      s.isInitialized = false →
      KeyManager.generateStatusStep hp kmrt s n =
        (match KeyManager.acceptedResponse hp kmrt s n with
          | some r =>
            if r.isSecure = s.isSecure ∨ r.isSecure = true
            then { s with
                    isInitialized := true
                    isSecure := r.isSecure
                    checksum := r.checksum
                    nodes := s.nodes ++ [n.id] }
            else s
          | none => s)) ∧
    (∀ (s : KeyManager.Status) (ns : List KeyManager.KmNode),
      s.isInitialized = true →
      (ns.foldl (KeyManager.generateStatusStep hp kmrt) s).isSecure =
          s.isSecure ∧
        (ns.foldl (KeyManager.generateStatusStep hp kmrt) s).checksum =
          s.checksum) ∧
    (∀ (s : KeyManager.Status) (ns1 : List KeyManager.KmNode)
        (n : KeyManager.KmNode) (ns2 : List KeyManager.KmNode)
        (r : KeyManager.InitResponse),
      s.isInitialized = false →
      (∀ m ∈ ns1, KeyManager.generateStatusStep hp kmrt s m = s) →
      KeyManager.acceptedResponse hp kmrt s n = some r →
      (r.isSecure = s.isSecure ∨ r.isSecure = true) →
      ((ns1 ++ n :: ns2).foldl
          (KeyManager.generateStatusStep hp kmrt) s).isSecure = r.isSecure ∧
        ((ns1 ++ n :: ns2).foldl
          (KeyManager.generateStatusStep hp kmrt) s).checksum = r.checksum) ∧
    (∀ (acc : KeyManager.KmState × List KeyManager.Status)
        (rt : KeyManager.KmRuntime) (old : KeyManager.Status),
      rt.kind = KeyManager.RuntimeKind.keyManager →
      lookupA acc.1.statuses rt.id = some old →
      (KeyManager.generateStatus hp rt old nodes = old →
        KeyManager.onEpochChangeStep hp nodes acc rt = acc) ∧
      (KeyManager.generateStatus hp rt old nodes ≠ old →
        KeyManager.onEpochChangeStep hp nodes acc rt =
          ({ statuses := updateA acc.1.statuses rt.id
              (KeyManager.generateStatus hp rt old nodes) },
           acc.2 ++ [KeyManager.generateStatus hp rt old nodes]))) ∧
    (∀ (acc : KeyManager.KmState × List KeyManager.Status)
        (rt : KeyManager.KmRuntime),
      rt.kind = KeyManager.RuntimeKind.keyManager →
      lookupA acc.1.statuses rt.id = none →
      KeyManager.onEpochChangeStep hp nodes acc rt =
        ({ statuses := updateA acc.1.statuses rt.id
            (KeyManager.generateStatus hp rt
              ⟨rt.id, false, false, [], none, []⟩ nodes) },
         acc.2 ++ [KeyManager.generateStatus hp rt
            ⟨rt.id, false, false, [], none, []⟩ nodes])) := by
  refine ⟨?_, ?_, ?_, ?_, ?_, ?_⟩
  · intro s n h
    unfold KeyManager.generateStatusStep
    cases KeyManager.acceptedResponse hp kmrt s n with
    | none => rfl
    | some r =>
      dsimp only
      rw [if_pos h]
      by_cases h1 : r.isSecure = s.isSecure
      · by_cases h2 : r.checksum = s.checksum
        · rw [if_neg (by simp [h1]), if_neg (by simp [h2]),
            if_pos ⟨h1, h2⟩]
        · rw [if_neg (by simp [h1]), if_pos (by simp [h2]),
            if_neg (by simp [h2])]
      · rw [if_pos (by simp [h1]), if_neg (by simp [h1])]
  · intro s n h
    unfold KeyManager.generateStatusStep
    cases KeyManager.acceptedResponse hp kmrt s n with
    | none => rfl
    | some r =>
      dsimp only
      rw [if_neg (by simp [h])]
      cases hr : r.isSecure <;> cases hs : s.isSecure <;>
        simp [hr, hs]
  · intro s ns h
    exact (generateStatus_fold_preserves hp kmrt ns s h).2
  · intro s ns1 n ns2 r h hpre hacc hsec
    rw [List.foldl_append, foldl_congr_id _ _ _ hpre, List.foldl_cons]
    have hstep : KeyManager.generateStatusStep hp kmrt s n =
        { s with
            isInitialized := true
            isSecure := r.isSecure
            checksum := r.checksum
            nodes := s.nodes ++ [n.id] } := by
      unfold KeyManager.generateStatusStep
      rw [hacc]
      dsimp only
      rw [if_neg (by simp [h])]
      rcases hsec with h1 | h1
      · rw [if_neg (by simp [h1])]
      · rw [if_neg (by simp [h1])]
    rw [hstep]
    exact (generateStatus_fold_preserves hp kmrt ns2 _ rfl).2
  · intro acc rt old hkind hlook
    constructor
    · intro heq
      unfold KeyManager.onEpochChangeStep
      rw [if_neg (by simp [hkind])]
      rw [hlook]
      dsimp only
      rw [if_neg (by simp [heq])]
    · intro hne
      unfold KeyManager.onEpochChangeStep
      rw [if_neg (by simp [hkind])]
      rw [hlook]
      dsimp only
      rw [if_pos (by simp [hne])]
  · intro acc rt hkind hlook
    unfold KeyManager.onEpochChangeStep
    rw [if_neg (by simp [hkind])]
    rw [hlook]
    dsimp only
    rw [if_pos (by simp)]

theorem keymanager_status_update_witness :
    ((⟨1, false, false, [], none, []⟩ :
        KeyManager.Status).isInitialized = false ∧
      KeyManager.acceptedResponse (fun _ => []) ⟨1, .keyManager, 0⟩
        ⟨1, false, false, [], none, []⟩
        ⟨5, true, [⟨1, none, some ⟨true, [7], []⟩⟩]⟩ =
          some ⟨true, [7], []⟩) ∧
    KeyManager.generateStatusStep (fun _ => []) ⟨1, .keyManager, 0⟩
        ⟨1, false, false, [], none, []⟩
        ⟨5, true, [⟨1, none, some ⟨true, [7], []⟩⟩]⟩ =
      ⟨1, true, true, [7], none, [5]⟩ := by
  have h := keymanager_status_update (fun _ => []) ⟨1, .keyManager, 0⟩
    [⟨5, true, [⟨1, none, some ⟨true, [7], []⟩⟩]⟩]
  refine ⟨⟨rfl, by decide⟩, ?_⟩
  rw [h.2.1 ⟨1, false, false, [], none, []⟩
    ⟨5, true, [⟨1, none, some ⟨true, [7], []⟩⟩]⟩ rfl]
  decide

/-! ### C10 — `Key.SplitAt` equals `Key.SplitAtObviouslyCorrect` -/

theorem shiftRight_and_one (z s : Nat) :
    z >>> s &&& 1 = (z.testBit s).toNat := by
  rw [Nat.testBit_to_div_mod, Nat.and_one_is_mod, Nat.shiftRight_eq_div_pow]
  rcases Nat.mod_two_eq_zero_or_one (z / 2 ^ s) with h | h <;> simp [h]

theorem getBit_eq_testBit (key : Alg.Key) (bix : Nat) :
    key.GetBit bix =
      ((Alg.byteAt key.k ((key.msbBix + bix) / 8)).testBit
        (7 - (key.msbBix + bix) % 8)).toNat := by
  unfold Alg.Key.GetBit
  exact shiftRight_and_one _ _

theorem getBit_le_one (key : Alg.Key) (bix : Nat) : key.GetBit bix ≤ 1 := by
  unfold Alg.Key.GetBit
  rw [Nat.and_one_is_mod]
  omega

theorem byteAt_lt (bs : List Nat) (hB : ∀ b ∈ bs, b < 256) (i : Nat) :
    Alg.byteAt bs i < 256 := by
  unfold Alg.byteAt
  rw [List.getD_eq_getElem?_getD]
  by_cases h : i < bs.length
  · rw [List.getElem?_eq_getElem h]
    exact hB _ (List.getElem_mem h)
  · rw [List.getElem?_eq_none (by omega)]
    simp

theorem byteAtI_lt (bs : List Nat) (hB : ∀ b ∈ bs, b < 256) (j : Int) :
    Alg.byteAtI bs j < 256 := by
  unfold Alg.byteAtI
  split
  · exact byteAt_lt bs hB _
  · simp

theorem byteAtI_ofNat (bs : List Nat) (i : Nat) :
    Alg.byteAtI bs (i : Int) = Alg.byteAt bs i := by
  unfold Alg.byteAtI
  rw [if_pos (by omega)]
  simp

/-- The bit of `byteAtI bs idx` at LSB position `j` is the absolute
array bit `u` (byte `u / 8`, MSB offset `u % 8`) whenever
`8 · idx + (7 − j) = u`. -/
theorem byteAtI_testBit_abs (bs : List Nat) (idx : Int) (j u : Nat)
    (hj : j ≤ 7) (habs : 8 * idx + ((7 : Int) - (j : Int)) = (u : Int)) :
    (Alg.byteAtI bs idx).testBit j =
      (Alg.byteAt bs (u / 8)).testBit (7 - u % 8) := by
  have hidx : 0 ≤ idx := by omega
  obtain ⟨i, rfl⟩ := Int.eq_ofNat_of_zero_le hidx
  rw [byteAtI_ofNat]
  have h1 : i = u / 8 := by omega
  have h2 : j = 7 - u % 8 := by omega
  rw [h1, h2]

theorem splitAtCopy_length (bs : List Nat) (hi lo : Nat) :
    ∀ (kx : Nat) (par : Nat) (jx : Int),
      (Alg.splitAtCopy bs hi lo par jx kx).length = kx := by
  intro kx
  induction kx with
  | zero => intro par jx; rfl
  | succ k ih =>
    intro par jx
    simp [Alg.splitAtCopy, ih]

theorem splitAtCopy_getD (bs : List Nat) (hi lo : Nat) :
    ∀ (kx : Nat) (par : Nat) (jx : Int) (p : Nat), p < kx →
      (Alg.splitAtCopy bs hi lo par jx kx).getD p 0 =
        (if p + 1 = kx then par
          else Alg.byteAtI bs (jx + (p : Int) + 2 - (kx : Int)) >>> lo) |||
        ((Alg.byteAtI bs (jx + (p : Int) + 1 - (kx : Int)) <<< hi) % 256) := by
  intro kx
  induction kx with
  | zero => intro par jx p hp; omega
  | succ k ih =>
    intro par jx p hp
    simp only [Alg.splitAtCopy]
    rw [List.getD_eq_getElem?_getD, List.getElem?_append]
    rw [splitAtCopy_length bs hi lo k]
    by_cases hpk : p < k
    · rw [if_pos hpk]
      rw [← List.getD_eq_getElem?_getD]
      rw [ih (Alg.byteAtI bs jx >>> lo) (jx - 1) p hpk]
      by_cases hlast : p + 1 = k
      · rw [if_pos hlast, if_neg (by omega)]
        have e1 : jx + (p : Int) + 2 - (((k + 1) : Nat) : Int) = jx := by
          push_cast
          omega
        have e2 : jx - 1 + (p : Int) + 1 - (k : Int) =
            jx + (p : Int) + 1 - (((k + 1) : Nat) : Int) := by
          push_cast
          omega
        rw [e1, e2]
      · rw [if_neg hlast, if_neg (by omega)]
        have e1 : jx - 1 + (p : Int) + 2 - (k : Int) =
            jx + (p : Int) + 2 - (((k + 1) : Nat) : Int) := by
          push_cast
          omega
        have e2 : jx - 1 + (p : Int) + 1 - (k : Int) =
            jx + (p : Int) + 1 - (((k + 1) : Nat) : Int) := by
          push_cast
          omega
        rw [e1, e2]
    · have hpk' : p = k := by omega
      subst hpk'
      rw [if_neg (by omega)]
      simp only [Nat.sub_self, List.getElem?_cons_zero, Option.getD_some,
        if_true]
      have e : jx + (p : Int) + 1 - (((p + 1) : Nat) : Int) = jx := by
        push_cast
        ring
      rw [e]

/-- The shift-copy loop produces exactly the key's bits: bit `jx2` of the
copied prefix (viewed with the cursor `8·nb − ix`) equals bit `jx2` of
the original key, whenever the split position is not byte aligned. -/
theorem unaligned_pfx_getBit (bs : List Nat) (M ix H L nb boundary : Nat)
    (hB : ∀ b ∈ bs, b < 256)
    (hH : H = (ix + M) % 8) (hHne : H ≠ 0) (hL : L = 8 - H)
    (hnb : nb = (ix + 7) / 8) (hbd : boundary = (ix + M) / 8)
    (jx2 : Nat) (hjx2 : jx2 < ix) :
    Alg.Key.GetBit
      ⟨Alg.splitAtCopy bs H L (Alg.byteAt bs boundary >>> L)
          ((boundary : Int) - 1) nb, 8 * nb - ix⟩ jx2 =
      Alg.Key.GetBit ⟨bs, M⟩ jx2 := by
  have hH7 : 1 ≤ H ∧ H ≤ 7 := by omega
  rw [getBit_eq_testBit, getBit_eq_testBit]
  dsimp only
  set t := 8 * nb - ix + jx2 with ht
  have hplt : t / 8 < nb := by omega
  simp only [Alg.byteAt]
  rw [splitAtCopy_getD bs H L nb _ _ (t / 8) hplt]
  have hA : (if t / 8 + 1 = nb then bs.getD boundary 0 >>> L
      else Alg.byteAtI bs ((boundary : Int) - 1 + ((t / 8 : Nat) : Int) + 2
        - (nb : Int)) >>> L) =
      Alg.byteAtI bs ((boundary : Int) + ((t / 8 : Nat) : Int) + 1
        - (nb : Int)) >>> L := by
    by_cases h : t / 8 + 1 = nb
    · rw [if_pos h]
      have e : (boundary : Int) + ((t / 8 : Nat) : Int) + 1 - (nb : Int) =
          ((boundary : Nat) : Int) := by omega
      rw [e, byteAtI_ofNat]
      rfl
    · rw [if_neg h]
      have e : (boundary : Int) - 1 + ((t / 8 : Nat) : Int) + 2 - (nb : Int) =
          (boundary : Int) + ((t / 8 : Nat) : Int) + 1 - (nb : Int) := by ring
      rw [e]
  rw [hA]
  have eB : (boundary : Int) - 1 + ((t / 8 : Nat) : Int) + 1 - (nb : Int) =
      (boundary : Int) + ((t / 8 : Nat) : Int) - (nb : Int) := by ring
  rw [eB]
  congr 1
  rw [show (256 : Nat) = 2 ^ 8 by norm_num]
  rw [Nat.testBit_or, Nat.testBit_shiftRight, Nat.testBit_mod_two_pow,
    Nat.testBit_shiftLeft]
  by_cases hs : H ≤ 7 - t % 8
  · have hAfalse : (Alg.byteAtI bs ((boundary : Int) + ((t / 8 : Nat) : Int)
        + 1 - (nb : Int))).testBit (L + (7 - t % 8)) = false := by
      apply Nat.testBit_lt_two_pow
      calc Alg.byteAtI bs _ < 256 := byteAtI_lt bs hB _
        _ = 2 ^ 8 := by norm_num
        _ ≤ 2 ^ (L + (7 - t % 8)) := Nat.pow_le_pow_right (by omega) (by omega)
    rw [hAfalse]
    rw [byteAtI_testBit_abs bs ((boundary : Int) + ((t / 8 : Nat) : Int)
        - (nb : Int)) (7 - t % 8 - H) (M + jx2) (by omega)
        (by push_cast; omega)]
    have d1 : 7 - t % 8 < 8 := by omega
    simp [d1, hs, Alg.byteAt, List.getD_eq_getElem?_getD]
  · rw [byteAtI_testBit_abs bs ((boundary : Int) + ((t / 8 : Nat) : Int)
        + 1 - (nb : Int)) (L + (7 - t % 8)) (M + jx2) (by omega)
        (by push_cast; omega)]
    have d2 : ¬(H ≤ 7 - t % 8) := hs
    simp [d2, Alg.byteAt, List.getD_eq_getElem?_getD]

/-- Prefix produced by the optimized `SplitAt`: `ix` bits, equal to the
key's first `ix` bits. -/
theorem splitAt_pfx_spec (key : Alg.Key) (ix : Nat) (hwf : key.Wf)
    (hix : ix ≤ key.NumBits) :
    (key.SplitAt ix).1.NumBits = ix ∧
    ∀ jx2 < ix, (key.SplitAt ix).1.GetBit jx2 = key.GetBit jx2 := by
  obtain ⟨ks, M⟩ := key
  obtain ⟨hwf1, hwf2⟩ := hwf
  simp only [Alg.Key.NumBits] at hix
  dsimp only at hwf1 hwf2 hix
  unfold Alg.Key.SplitAt
  dsimp only
  by_cases hal : (ix + M) % 8 = 0
  · rw [if_pos (by simpa using hal)]
    dsimp only
    constructor
    · show 8 * (List.take ((ix + M) / 8) ks).length - M = ix
      rw [List.length_take]
      have h1 : (ix + M) / 8 ≤ ks.length := by omega
      rw [min_eq_left h1]
      omega
    · intro jx2 hjx2
      rw [getBit_eq_testBit, getBit_eq_testBit]
      dsimp only
      have hkix : (M + jx2) / 8 < (ix + M) / 8 := by omega
      congr 2
      unfold Alg.byteAt
      rw [List.getD_eq_getElem?_getD, List.getD_eq_getElem?_getD,
        List.getElem?_take, if_pos hkix]
  · rw [if_neg (by simpa using hal)]
    dsimp only
    constructor
    · show 8 * (Alg.splitAtCopy ks ((ix + M) % 8) (8 - (ix + M) % 8)
          (Alg.byteAt ks ((ix + M) / 8) >>> (8 - (ix + M) % 8))
          (((ix + M) / 8 : Nat) - 1 : Int) ((ix + 7) / 8)).length
        - (8 * ((ix + 7) / 8) - ix) = ix
      rw [splitAtCopy_length]
      omega
    · intro jx2 hjx2
      exact unaligned_pfx_getBit ks M ix ((ix + M) % 8) (8 - (ix + M) % 8)
        ((ix + 7) / 8) ((ix + M) / 8) hwf2 rfl hal rfl rfl rfl jx2 hjx2

theorem setBit_msbBix (p : Alg.Key) (j v : Nat) :
    (p.SetBit j v).msbBix = p.msbBix := rfl

theorem setBit_length (p : Alg.Key) (j v : Nat) :
    (p.SetBit j v).k.length = p.k.length := by
  unfold Alg.Key.SetBit
  exact List.length_set ..

theorem getBit_setBit_same (p : Alg.Key) (j v : Nat) (hv : v ≤ 1)
    (hoff : (p.msbBix + j) / 8 < p.k.length) :
    (p.SetBit j v).GetBit j = v := by
  rw [getBit_eq_testBit]
  unfold Alg.Key.SetBit Alg.byteAt
  dsimp only
  rw [List.getD_eq_getElem?_getD]
  rw [show (p.k.set ((p.msbBix + j) / 8)
      ((p.k.getD ((p.msbBix + j) / 8) 0 &&& (255 ^^^ (1 <<< (7 - (p.msbBix + j) % 8))))
        ||| (v <<< (7 - (p.msbBix + j) % 8))))[(p.msbBix + j) / 8]? =
      some ((p.k.getD ((p.msbBix + j) / 8) 0 &&& (255 ^^^ (1 <<< (7 - (p.msbBix + j) % 8))))
        ||| (v <<< (7 - (p.msbBix + j) % 8))) from by
    simp [List.getElem?_set_self, hoff]]
  simp only [Option.getD_some]
  rw [Nat.testBit_or, Nat.testBit_and, Nat.testBit_xor]
  rw [show (255 : Nat) = 2 ^ 8 - 1 by norm_num, Nat.testBit_two_pow_sub_one]
  rw [Nat.one_shiftLeft, Nat.testBit_two_pow_self]
  rw [Nat.testBit_shiftLeft]
  have h8 : 7 - (p.msbBix + j) % 8 < 8 := by omega
  simp only [decide_eq_true_eq, h8, decide_True, Bool.bne_true, ge_iff_le,
    le_refl, Nat.sub_self, Bool.not_true, Bool.and_false, Bool.false_or,
    Bool.true_and]
  interval_cases v
  · simp
  · simp

theorem setBit_byteAt_ne (p : Alg.Key) (j v : Nat) (off : Nat)
    (hoff : off ≠ (p.msbBix + j) / 8) :
    Alg.byteAt (p.SetBit j v).k off = Alg.byteAt p.k off := by
  unfold Alg.Key.SetBit Alg.byteAt
  dsimp only
  rw [List.getD_eq_getElem?_getD, List.getElem?_set_ne (by omega),
    ← List.getD_eq_getElem?_getD]

theorem setBit_byteAt_self (p : Alg.Key) (j v : Nat)
    (hoff : (p.msbBix + j) / 8 < p.k.length) :
    Alg.byteAt (p.SetBit j v).k ((p.msbBix + j) / 8) =
      ((Alg.byteAt p.k ((p.msbBix + j) / 8) &&&
          (255 ^^^ (1 <<< (7 - (p.msbBix + j) % 8))))
        ||| (v <<< (7 - (p.msbBix + j) % 8))) := by
  unfold Alg.Key.SetBit Alg.byteAt
  dsimp only
  rw [List.getD_eq_getElem?_getD]
  simp [List.getElem?_set_self, hoff]

theorem getBit_setBit_ne (p : Alg.Key) (j j' v : Nat) (hv : v ≤ 1)
    (hne : j ≠ j') :
    (p.SetBit j v).GetBit j' = p.GetBit j' := by
  rw [getBit_eq_testBit, getBit_eq_testBit, setBit_msbBix]
  by_cases hb : (p.msbBix + j') / 8 = (p.msbBix + j) / 8
  · by_cases hoff : (p.msbBix + j) / 8 < p.k.length
    · rw [hb, setBit_byteAt_self p j v hoff]
      have hpos : (p.msbBix + j') % 8 ≠ (p.msbBix + j) % 8 := by omega
      set s := 7 - (p.msbBix + j) % 8 with hs
      set s' := 7 - (p.msbBix + j') % 8 with hs'
      have hss : s' ≠ s := by omega
      rw [Nat.testBit_or, Nat.testBit_and, Nat.testBit_xor]
      rw [show (255 : Nat) = 2 ^ 8 - 1 by norm_num,
        Nat.testBit_two_pow_sub_one]
      rw [Nat.one_shiftLeft, Nat.testBit_two_pow]
      rw [Nat.testBit_shiftLeft]
      have h8 : s' < 8 := by omega
      have hvbit : (decide (s' ≥ s) && v.testBit (s' - s)) = false := by
        by_cases hge : s ≤ s'
        · have hvb : v.testBit (s' - s) = false := by
            apply Nat.testBit_lt_two_pow
            have h1 : 1 ≤ s' - s := by omega
            calc v < 2 := by omega
              _ = 2 ^ 1 := by norm_num
              _ ≤ 2 ^ (s' - s) := Nat.pow_le_pow_right (by omega) h1
          simp [hvb]
        · simp [hge]
      rw [hvbit]
      simp [h8, hss.symm]
    · have hset : (p.SetBit j v).k = p.k := by
        unfold Alg.Key.SetBit
        dsimp only
        exact List.set_eq_of_length_le (by omega)
      rw [hset]
  · rw [setBit_byteAt_ne p j v _ hb]

/-- The bit-copy loop of the obvious split: after `j ≤ ix` iterations the
prefix has the right shape and carries the key's first `j` bits. -/
theorem obvious_fold_spec (key : Alg.Key) (ix nbytes : Nat)
    (hnb : nbytes = (ix + 7) / 8) :
    ∀ j, j ≤ ix →
      ((List.range j).foldl (fun p jx => p.SetBit jx (key.GetBit jx))
          (⟨List.replicate nbytes 0, 8 * nbytes - ix⟩ : Alg.Key)).k.length =
        nbytes ∧
      ((List.range j).foldl (fun p jx => p.SetBit jx (key.GetBit jx))
          (⟨List.replicate nbytes 0, 8 * nbytes - ix⟩ : Alg.Key)).msbBix =
        8 * nbytes - ix ∧
      ∀ pos < j,
        ((List.range j).foldl (fun p jx => p.SetBit jx (key.GetBit jx))
            (⟨List.replicate nbytes 0, 8 * nbytes - ix⟩ : Alg.Key)).GetBit
            pos =
          key.GetBit pos := by
  intro j
  induction j with
  | zero =>
    intro _
    refine ⟨by simp, rfl, ?_⟩
    intro pos hpos
    omega
  | succ j ih =>
    intro hj
    obtain ⟨ih1, ih2, ih3⟩ := ih (by omega)
    rw [List.range_succ, List.foldl_append, List.foldl_cons, List.foldl_nil]
    refine ⟨by rw [setBit_length, ih1], by rw [setBit_msbBix, ih2], ?_⟩
    intro pos hpos
    by_cases hpj : pos = j
    · subst hpj
      rw [getBit_setBit_same _ _ _ (getBit_le_one key pos)
        (by rw [ih1, ih2]; omega)]
    · rw [getBit_setBit_ne _ _ _ _ (getBit_le_one key j) (fun h => hpj h.symm)]
      exact ih3 pos (by omega)

/-- Prefix produced by the obvious split: `ix` bits, equal to the key's
first `ix` bits. -/
theorem obvious_pfx_spec (key : Alg.Key) (ix : Nat) :
    (key.SplitAtObviouslyCorrect ix).1.NumBits = ix ∧
    ∀ jx2 < ix,
      (key.SplitAtObviouslyCorrect ix).1.GetBit jx2 = key.GetBit jx2 := by
  unfold Alg.Key.SplitAtObviouslyCorrect
  dsimp only
  have h := obvious_fold_spec key ix ((ix + 7) / 8) rfl ix (le_refl _)
  refine ⟨?_, fun jx2 h2 => h.2.2 jx2 h2⟩
  show 8 * _ - _ = ix
  rw [h.1, h.2.1]
  omega

theorem splitAt_sfx (key : Alg.Key) (ix : Nat) :
    (key.SplitAt ix).2 = ⟨key.k, ix + key.msbBix⟩ := by
  unfold Alg.Key.SplitAt
  dsimp only
  split <;> rfl

theorem obvious_sfx (key : Alg.Key) (ix : Nat) :
    (key.SplitAtObviouslyCorrect ix).2 = ⟨key.k, key.msbBix + ix⟩ := rfl

/-- **C10.** For every well-formed key `k` and split index
`ix ≤ k.NumBits`, the optimized `Key.SplitAt ix` returns a
(prefix, suffix) pair bitwise equal to the pair returned by
`Key.SplitAtObviouslyCorrect ix`: the prefixes have the same `NumBits`
and the same `GetBit` value at every position, and likewise the
suffixes. -/
theorem key_splitAt_refines_obvious (key : Alg.Key) (hwf : key.Wf)
    (ix : Nat) (hix : ix ≤ key.NumBits) :
    (key.SplitAt ix).1.BitEq (key.SplitAtObviouslyCorrect ix).1 ∧
    (key.SplitAt ix).2.BitEq (key.SplitAtObviouslyCorrect ix).2 := by
  obtain ⟨hf1, hf2⟩ := splitAt_pfx_spec key ix hwf hix
  obtain ⟨ho1, ho2⟩ := obvious_pfx_spec key ix
  constructor
  · refine ⟨by rw [hf1, ho1], ?_⟩
    intro pos hpos
    rw [hf1] at hpos
    rw [hf2 pos hpos, ho2 pos hpos]
  · rw [splitAt_sfx, obvious_sfx]
    constructor
    · show 8 * key.k.length - (ix + key.msbBix) =
        8 * key.k.length - (key.msbBix + ix)
      omega
    · intro pos hpos
      unfold Alg.Key.GetBit
      dsimp only
      rw [Nat.add_comm ix key.msbBix]

theorem key_splitAt_refines_obvious_witness :
    ((Alg.Key.Wf ⟨[122, 165], 0⟩ ∧ 5 ≤ (Alg.Key.NumBits ⟨[122, 165], 0⟩)) ∧
      ((Alg.Key.SplitAt ⟨[122, 165], 0⟩ 5).1.BitEq
          ((Alg.Key.SplitAtObviouslyCorrect ⟨[122, 165], 0⟩ 5).1) ∧
        (Alg.Key.SplitAt ⟨[122, 165], 0⟩ 5).2.BitEq
          ((Alg.Key.SplitAtObviouslyCorrect ⟨[122, 165], 0⟩ 5).2))) :=
  ⟨⟨by decide, by decide⟩,
   key_splitAt_refines_obvious ⟨[122, 165], 0⟩ (by decide) 5 (by decide)⟩
